import Mathlib

/-!
Verification development for the relic-info-extractor data core (src/gui.py).

The Python source keeps its working data as a list of dictionaries with
string/int/bool values.  We embed the data model and the pure data
operations (CSV row ingestion, name standardization, duplicate merging,
group auto-fill, JSON export shaping, project snapshot save/load) as
executable Lean definitions, translated function by function from the
source.  UI-only concerns (widget layout, treeview refresh, status bar,
dialogs, column widths) are not part of the embedding.

Modelling conventions, used consistently below:
* Python strings are Lean `String`s; operations are defined on the
  underlying `List Char` (`String.data`), which matches Python's
  code-point view of `str`.  `str.strip()` and friends are modelled for
  the ASCII whitespace the data actually contains.
* A Python record dict is the structure `Record`.  The `level` cell can
  hold either a string or an int in the source, hence the `Val` union.
* Python `set` values whose only observable uses are membership, union
  and `sorted(...)` are modelled as canonically sorted duplicate-free
  `List Int` values (`parse_game_ids` and friends) or as `Finset String`
  (the "used value" sets).
* The merge routines mutate dict objects held in several lists at once.
  We model object identity by list position: every helper works on the
  full list plus a list of removed positions.  Python's `in`/`remove`
  use dict value equality, which coincides with positional identity
  whenever record ids are distinct, as they are for every list the
  program ever merges (ids are assigned by an increasing counter).
* File input is modelled as `Option (List Row)`: `none` is a file whose
  `open`/decode fails, `some rows` a fully decoded CSV body.
-/

/-- Dynamic value of a user-editable cell: the source stores either a
string (initially `''`) or an int (auto-filled level). -/
inductive Val where
  | str (s : String)
  | int (n : Int)
deriving DecidableEq

/-- One relic record, the typed form of the per-row dict built by
`process_csv_row` and mutated by the later passes.  The dict key
`stacks` is spelled `stacks_` here because `stacks` is a reserved
token in this Lean environment. -/
structure Record where
  id : Nat
  gameIds : String
  name : String
  debuff : Bool
  deep : Bool
  stacks_ : String
  nightfarer : String
  level_group_id : Int
  level_group : String
  category : String
  display_group : String
  level : Val
deriving DecidableEq

instance : Inhabited Record :=
  ⟨{ id := 0, gameIds := "", name := "", debuff := false, deep := false,
     stacks_ := "", nightfarer := "", level_group_id := 0, level_group := "",
     category := "", display_group := "", level := Val.str "" }⟩

/-- Python `len` on a string (number of code points). -/
def pyLen (s : String) : Nat := s.data.length

/-- Drop trailing whitespace characters from a character list. -/
def dropTrailWs : List Char → List Char
  | [] => []
  | c :: cs =>
    let r := dropTrailWs cs
    if r = [] ∧ c.isWhitespace then [] else c :: r

/-- Python `str.strip()` on a character list: drop leading and trailing
whitespace. -/
def pyStripL (cs : List Char) : List Char :=
  dropTrailWs (cs.dropWhile Char.isWhitespace)

/-- Python `str.strip()`. -/
def pyStrip (s : String) : String := ⟨pyStripL s.data⟩

/-- Python `a.startswith(b)`. -/
def pyStartsWith (s pre : String) : Bool := pre.data.isPrefixOf s.data

/-- Python `s[n:]` (drop the first `n` code points). -/
def dropChars (s : String) (n : Nat) : String := ⟨s.data.drop n⟩

/-- Python `s[a:b]` slice. -/
def sliceChars (s : String) (a b : Nat) : String := ⟨(s.data.drop a).take (b - a)⟩

/-- Python `str.lower()` (ASCII model). -/
def pyLower (s : String) : String := ⟨s.data.map Char.toLower⟩

/-- Split a character list on every `,` character, keeping empty pieces,
as Python `s.split(',')` does. -/
def splitOnComma : List Char → List (List Char)
  | [] => [[]]
  | c :: cs =>
    let r := splitOnComma cs
    if c = ',' then [] :: r
    else
      match r with
      | [] => [[c]]
      | h :: t => (c :: h) :: t

/-- Whitespace-separated words of a string, as Python `s.split()` (runs of
whitespace separate words, no empty pieces).  Structured with explicit
fuel so that it is structurally recursive; `pyWords` supplies enough. -/
def pyWordsFuel : Nat → List Char → List String
  | 0, _ => []
  | _, [] => []
  | fuel + 1, c :: cs =>
    if c.isWhitespace then pyWordsFuel fuel cs
    else
      (⟨c :: cs.takeWhile (fun d => ¬ d.isWhitespace)⟩ : String) ::
        pyWordsFuel fuel (cs.dropWhile (fun d => ¬ d.isWhitespace))

/-- Python `s.split()`. -/
def pyWords (s : String) : List String := pyWordsFuel (s.data.length + 1) s.data

/-- Value of the ASCII digit characters `'0'`–`'9'`. -/
def digitVal (c : Char) : Nat := c.toNat - 48

/-- ASCII digit character for `n % 10`. -/
def digitChar (n : Nat) : Char :=
  match n with
  | 0 => '0' | 1 => '1' | 2 => '2' | 3 => '3' | 4 => '4'
  | 5 => '5' | 6 => '6' | 7 => '7' | 8 => '8' | _ => '9'

/-- Accumulating parser for the digit body of a Python integer literal:
digits, with single underscores allowed between digits. -/
def pyDigitsCore : Nat → List Char → Option Nat
  | acc, [] => some acc
  | acc, c :: cs =>
    if c.isDigit then pyDigitsCore (10 * acc + digitVal c) cs
    else if c = '_' then
      match cs with
      | [] => none
      | d :: cs2 => if d.isDigit then pyDigitsCore (10 * acc + digitVal d) cs2 else none
    else none

/-- Parse a nonempty digit body (first character must be a digit). -/
def pyDigits : List Char → Option Nat
  | [] => none
  | c :: cs => if c.isDigit then pyDigitsCore (digitVal c) cs else none

/-- Python `int(s)`: strip whitespace, optional sign, decimal digits.
Returns `none` where `int` raises `ValueError`. -/
def pyInt (s : String) : Option Int :=
  match pyStripL s.data with
  | [] => none
  | c :: rest =>
    if c = '+' then (pyDigits rest).map Int.ofNat
    else if c = '-' then (pyDigits rest).map (fun n => -Int.ofNat n)
    else (pyDigits (c :: rest)).map Int.ofNat

/-- Decimal digit characters of a natural number, most significant first
(fuel-structured so it reduces definitionally). -/
def natDigitsCore : Nat → Nat → List Char
  | 0, _ => []
  | fuel + 1, n =>
    if n < 10 then [digitChar n]
    else natDigitsCore fuel (n / 10) ++ [digitChar (n % 10)]

/-- Decimal digit characters of a natural number. -/
def natDigits (n : Nat) : List Char := natDigitsCore (n + 1) n

/-- Python `str(i)` for an int, as a character list. -/
def intToStrL (i : Int) : List Char :=
  if i < 0 then '-' :: natDigits i.natAbs else natDigits i.natAbs

/-- Python `', '.join(map(str, l))` for an int list, as a character list. -/
def joinIdsL : List Int → List Char
  | [] => []
  | [x] => intToStrL x
  | x :: y :: xs => intToStrL x ++ ',' :: ' ' :: joinIdsL (y :: xs)

/-- Python `', '.join(map(str, l))` for an int list. -/
def joinIds (l : List Int) : String := ⟨joinIdsL l⟩

/-- Insert an int into an ascending duplicate-free list, keeping it
ascending and duplicate-free (the canonical image of a Python int set). -/
def insertSortedInt (x : Int) : List Int → List Int
  | [] => [x]
  | y :: ys =>
    if x < y then x :: y :: ys
    else if x = y then y :: ys
    else y :: insertSortedInt x ys

/-- Canonical sorted duplicate-free form of an int list: the value of
Python `sorted(set(l))`. -/
def sortedDedup (l : List Int) : List Int := l.foldl (fun acc x => insertSortedInt x acc) []

/-- Union of two canonical int lists (Python set union, viewed through
`sorted`). -/
def idsUnion (a b : List Int) : List Int := b.foldl (fun acc x => insertSortedInt x acc) a

/-- All-or-nothing int parse of a piece list: the Python set-comprehension
in `parse_game_ids` raises (and so yields nothing) as soon as one piece
fails to parse. -/
def parseAll : List (List Char) → Option (List Int)
  | [] => some []
  | p :: ps =>
    match pyInt ⟨p⟩, parseAll ps with
    | some v, some vs => some (v :: vs)
    | _, _ => none

/-- Embedding of `parse_game_ids`: split on commas, strip each piece,
drop empty pieces, parse every piece as an int; any failure yields the
empty set.  The result is the canonical sorted duplicate-free list. -/
def parse_game_ids (s : String) : List Int :=
  if s = "" then []
  else
    match parseAll (((splitOnComma s.data).map pyStripL).filter (fun p => p ≠ [])) with
    | some l => sortedDedup l
    | none => []

/-- Embedding of `str_to_bool` (the string branch used on CSV cells). -/
def str_to_bool (s : String) : Bool :=
  pyLower s ∈ ["true", "1", "yes", "on", "t", "y"]

/-- The eight fixed faction tags, in the order the source lists them. -/
def nightfarer_names : List String :=
  ["Wylder", "Guardian", "Ironeye", "Duchess", "Raider", "Revenant", "Recluse", "Executor"]

/-- Bracketed faction form `"[Faction] "`. -/
def bracketTag (nf : String) : String := "[" ++ nf ++ "] "

/-- Embedding of the pattern loop of `standardize_name`: try each
candidate tag in order; already-bracketed stops unchanged, `"Tag: "` and
`"Tag "` are rewritten to bracket form; the first match wins. -/
def standardize_name_loop : List String → String → String
  | [], s => s
  | nf :: rest, s =>
    if pyStartsWith s (bracketTag nf) then s
    else if pyStartsWith s (nf ++ ": ") then bracketTag nf ++ dropChars s (pyLen nf + 2)
    else if pyStartsWith s (nf ++ " ") then bracketTag nf ++ dropChars s (pyLen nf + 1)
    else standardize_name_loop rest s

/-- Python `s.replace("- ", ", ")`: every (left-to-right, non-overlapping)
occurrence. -/
def replaceDashComma : List Char → List Char
  | [] => []
  | '-' :: ' ' :: rest => ',' :: ' ' :: replaceDashComma rest
  | c :: rest => c :: replaceDashComma rest

/-- Embedding of `standardize_name`.  `nightfarer = none` models the
falsy default (no tag given): all eight tags are tried and no prefix is
forced. -/
def standardize_name (name : String) (nightfarer : Option String) : String :=
  let toCheck := match nightfarer with
    | some nf => [nf]
    | none => nightfarer_names
  let s1 := standardize_name_loop toCheck name
  let s2 :=
    match nightfarer with
    | some nf =>
      if ¬ toCheck.any (fun t => pyStartsWith s1 (bracketTag t))
      then bracketTag nf ++ s1 else s1
    | none => s1
  (⟨replaceDashComma s2.data⟩ : String)

/-- Embedding of `remove_nightfarer_prefix_for_grouping` (the identical
nested helper inside `is_truncated_variant` and `find_common_text` is
shared with it): strip a leading `"[Faction] "` for the first matching
faction. -/
def remove_nightfarer_tag : List String → String → String
  | [], name => name
  | nf :: rest, name =>
    if pyStartsWith name (bracketTag nf) then dropChars name (pyLen nf + 3)
    else remove_nightfarer_tag rest name

/-- Strip a leading faction bracket using the fixed tag list. -/
def clean_name (name : String) : String := remove_nightfarer_tag nightfarer_names name

/-- Embedding of `is_word_subset`: the shorter word list occurs in order
inside the longer one. -/
def is_word_subset : List String → List String → Bool
  | [], _ => true
  | _ :: _, [] => false
  | s :: ss, l :: ls => if l = s then is_word_subset ss ls else is_word_subset (s :: ss) ls

/-- Loop of `has_single_word_difference`: two-pointer scan tolerating at
most one extra word in the longer list. -/
def single_word_diff_loop : List String → List String → Nat → Bool
  | [], _, extra => extra ≤ 1
  | _ :: _, [], _ => false
  | s :: ss, l :: ls, extra =>
    if s = l then single_word_diff_loop ss ls extra
    else if extra + 1 > 1 then false
    else single_word_diff_loop (s :: ss) ls (extra + 1)

/-- Embedding of `has_single_word_difference`. -/
def has_single_word_difference (shorter longer : List String) : Bool :=
  if longer.length ≠ shorter.length + 1 then false
  else single_word_diff_loop shorter longer 0

/-- Embedding of `are_word_variants`. -/
def are_word_variants (name1 name2 : String) : Bool :=
  let words1 := pyWords name1
  let words2 := pyWords name2
  if words1.length > words2.length + 1 then is_word_subset words2 words1
  else if words2.length > words1.length + 1 then is_word_subset words1 words2
  else if words1.length = words2.length + 1 ∨ words2.length = words1.length + 1 then
    let shorter := if words1.length < words2.length then words1 else words2
    let longer := if words1.length < words2.length then words2 else words1
    has_single_word_difference shorter longer
  else false

/-- Embedding of `is_truncated_variant`.  The `1.5` length factor of the
source is the exact rational comparison `2 * len1 > 3 * len2`. -/
def is_truncated_variant (name1 name2 : String) : Bool :=
  let c1 := clean_name name1
  let c2 := clean_name name2
  if c1 = c2 then true
  else if pyStartsWith c1 (c2 ++ " ") ∨ pyStartsWith c2 (c1 ++ " ") then true
  else if 2 * pyLen c1 > 3 * pyLen c2 ∧ pyStartsWith c1 c2 then true
  else if 2 * pyLen c2 > 3 * pyLen c1 ∧ pyStartsWith c2 c1 then true
  else are_word_variants c1 c2

/-- Embedding of `share_game_ids`: the two parsed gameId sets intersect. -/
def share_game_ids (item1 item2 : Record) : Bool :=
  (parse_game_ids item1.gameIds).any (fun x => x ∈ parse_game_ids item2.gameIds)

/-- Replace the element at one position of a list (used to model mutation
of the dict object at that position). -/
def modifyAt : List α → Nat → (α → α) → List α
  | [], _, _ => []
  | x :: xs, 0, f => f x :: xs
  | x :: xs, n + 1, f => x :: modifyAt xs n f

/-- Record at a position (out-of-range reads return the default record;
the source never reads out of range). -/
def recAt (data : List Record) (i : Nat) : Record := data.getD i default

/-- Stable insertion sort by a boolean `≤` test, matching Python
`list.sort(key=...)` (equal keys keep their relative order). -/
def insertLe (le : α → α → Bool) (x : α) : List α → List α
  | [] => [x]
  | y :: ys => if le y x then y :: insertLe le x ys else x :: y :: ys

/-- Stable insertion sort. -/
def sortByLe (le : α → α → Bool) : List α → List α
  | [] => []
  | x :: xs => insertLe le x (sortByLe le xs)

/-- Append an index to the group of key `k`, creating the group at the
end on first sight — the behaviour of inserting into a Python dict of
lists iterated in insertion order. -/
def addKeyed [DecidableEq κ] : List (κ × List Nat) → κ → Nat → List (κ × List Nat)
  | [], k, i => [(k, [i])]
  | (k2, is) :: rest, k, i =>
    if k2 = k then (k2, is ++ [i]) :: rest else (k2, is) :: addKeyed rest k i

/-- Build keyed groups from a list of (position, key) pairs. -/
def buildGroups [DecidableEq κ] (ps : List (Nat × κ)) : List (κ × List Nat) :=
  ps.foldl (fun gs p => addKeyed gs p.2 p.1) []

/-- Positions grouped under a key (empty when the key is absent). -/
def lookupG [DecidableEq κ] : List (κ × List Nat) → κ → List Nat
  | [], _ => []
  | (k2, is) :: rest, k => if k2 = k then is else lookupG rest k

/-- Stripped name of the record at a position. -/
def nameKeyAt (data : List Record) (i : Nat) : String := pyStrip (recAt data i).name

/-- Grouping pairs for phase 1 of `merge_duplicate_names`: every position
whose stripped name is nonempty, paired with that name, in list order. -/
def phase1Pairs (data : List Record) : List (Nat × String) :=
  ((List.range data.length).filter (fun i => pyStrip (recAt data i).name ≠ "")).map
    (fun i => (i, pyStrip (recAt data i).name))

/-- The `name_groups` dict of `merge_duplicate_names`, as (key, positions)
in insertion order. -/
def name_groups (data : List Record) : List (String × List Nat) :=
  buildGroups (phase1Pairs data)

/-- Merge state threaded through both phases: current data plus the
positions collected in `items_to_remove`. -/
abbrev MergeSt := List Record × List Nat

/-- The `all_game_ids` union of `merge_items`: union of the parsed
gameIds of every group member. -/
def group_game_ids (data : List Record) (sorted : List Nat) : List Int :=
  sorted.foldl (fun acc i => idsUnion acc (parse_game_ids (recAt data i).gameIds)) []

/-- Body of `merge_items` after the group has been sorted by id: keep
the first position, write the union of every member's parsed gameIds
into it (only when the union is nonempty), and mark the rest for
removal. -/
def merge_items_sorted (st : MergeSt) : List Nat → MergeSt
  | [] => st
  | keep :: rest =>
    (if group_game_ids st.1 (keep :: rest) ≠ [] then
        modifyAt st.1 keep
          (fun r => { r with gameIds := joinIds (group_game_ids st.1 (keep :: rest)) })
      else st.1,
      st.2 ++ rest)

/-- Embedding of `merge_items` on one group of positions: sort the group
by current id (stably, as `list.sort`), then merge into the first. -/
def merge_items (st : MergeSt) (idxs : List Nat) : MergeSt :=
  merge_items_sorted st (sortByLe (fun a b => (recAt st.1 a).id ≤ (recAt st.1 b).id) idxs)

/-- Phase 1 of `merge_duplicate_names`: process every exact-name group of
size above one with `merge_items`, starting from an empty removal list. -/
def merge_exact_phase (data : List Record) : MergeSt :=
  (name_groups data).foldl
    (fun st g => if g.2.length > 1 then merge_items st g.2 else st) (data, [])

/-- The kept position of `merge_truncated_pair`: the one with lower id
(ties go to the second, as in the source's `if id1 < id2`). -/
def mtp_keep (data : List Record) (i j : Nat) : Nat :=
  if (recAt data i).id < (recAt data j).id then i else j

/-- The removed position of `merge_truncated_pair`. -/
def mtp_rem (data : List Record) (i j : Nat) : Nat :=
  if (recAt data i).id < (recAt data j).id then j else i

/-- Name step of `merge_truncated_pair`: the kept record adopts the
second record's stripped name exactly when that name is strictly longer
than the first record's stripped name. -/
def mtp_data1 (data : List Record) (i j : Nat) : List Record :=
  if pyLen (pyStrip (recAt data j).name) > pyLen (pyStrip (recAt data i).name) then
    modifyAt data (mtp_keep data i j)
      (fun r => { r with name := pyStrip (recAt data j).name })
  else data

/-- The combined gameIds of `merge_truncated_pair`. -/
def mtp_union (data : List Record) (i j : Nat) : List Int :=
  idsUnion (parse_game_ids (recAt data i).gameIds) (parse_game_ids (recAt data j).gameIds)

/-- GameIds step of `merge_truncated_pair`: written only when the union
is nonempty. -/
def mtp_data2 (data : List Record) (i j : Nat) : List Record :=
  if mtp_union data i j ≠ [] then
    modifyAt (mtp_data1 data i j) (mtp_keep data i j)
      (fun r => { r with gameIds := joinIds (mtp_union data i j) })
  else mtp_data1 data i j

/-- Embedding of `merge_truncated_pair` on positions `i`, `j`: keep the
lower id, adopt the longer stripped name, union the parsed gameIds, and
mark the other position for removal. -/
def merge_truncated_pair (data : List Record) (removed : List Nat) (i j : Nat) : MergeSt :=
  (mtp_data2 data i j, removed ++ [mtp_rem data i j])

/-- One candidate pair of phase 2: skip it unless both positions are
still alive, then merge when the current names are truncated variants
and the records share a gameId. -/
def trunc_pair_step (st : MergeSt) (i j : Nat) : MergeSt :=
  if i ∈ st.2 ∨ j ∈ st.2 then st
  else if is_truncated_variant (pyStrip (recAt st.1 i).name) (pyStrip (recAt st.1 j).name)
      ∧ share_game_ids (recAt st.1 i) (recAt st.1 j) then
    merge_truncated_pair st.1 st.2 i j
  else st

/-- Inner loop of phase 2 over one group: all pairs `(i, j)` with `i`
before `j` in group order, in the source's nested-loop order. -/
def trunc_pairs_from (st : MergeSt) (x : Nat) : List Nat → MergeSt
  | [] => st
  | y :: ys => trunc_pairs_from (trunc_pair_step st x y) x ys

/-- All ordered pairs of a group, outer loop. -/
def trunc_group_loop (st : MergeSt) : List Nat → MergeSt
  | [] => st
  | x :: ys => trunc_group_loop (trunc_pairs_from st x ys) ys

/-- Grouping key of phase 2 for a record's current name: first two words
of the name with the faction bracket stripped, provided the stripped
name is nonempty and has at least two words. -/
def truncKey (name : String) : Option String :=
  let stripped := pyStrip name
  if stripped = "" then none
  else
    let words := pyWords (clean_name stripped)
    match words with
    | w1 :: w2 :: _ => some (w1 ++ " " ++ w2)
    | _ => none

/-- The `potential_groups` dict of `merge_truncated_names`, built over the
positions that survived phase 1, in order. -/
def trunc_groups (data : List Record) (removed : List Nat) : List (String × List Nat) :=
  let remaining := (List.range data.length).filter (fun i => i ∉ removed)
  buildGroups (remaining.filterMap (fun i => (truncKey (recAt data i).name).map (fun k => (i, k))))

/-- Embedding of `merge_truncated_names`: run the pair loops over every
group of size at least two. -/
def merge_truncated_names (data : List Record) (removed : List Nat) : MergeSt :=
  (trunc_groups data removed).foldl
    (fun st g => if g.2.length ≥ 2 then trunc_group_loop st g.2 else st) (data, removed)

/-- Embedding of `merge_duplicate_names`: exact-duplicate phase, then
truncated-variant phase, then removal of every position marked in
`items_to_remove`. -/
def merge_duplicate_names (data : List Record) : List Record :=
  let st1 := merge_exact_phase data
  let st2 := merge_truncated_names st1.1 st1.2
  ((List.range st2.1.length).filter (fun i => i ∉ st2.2)).map (fun i => recAt st2.1 i)

/-- A decoded CSV row: header-name/value pairs (`csv.DictReader` row). -/
abbrev Row := List (String × String)

/-- Python `row.get(col, '')`. -/
def rowGet (row : Row) (k : String) : String :=
  ((row.find? (fun p => p.1 = k)).map (fun p => p.2)).getD ""

/-- Python lexicographic string `>` on code points. -/
def lexGt : List Char → List Char → Bool
  | [], _ => false
  | _ :: _, [] => true
  | a :: as, b :: bs =>
    if a.toNat > b.toNat then true
    else if a.toNat < b.toNat then false
    else lexGt as bs

/-- The raw-string test `value > '0'` that `process_csv_row` applies to
candidate gameId cells — a lexicographic comparison, not numeric. -/
def gtZeroStr (s : String) : Bool := lexGt s.data ['0']

/-- The four CSV columns scanned for gameIds. -/
def game_id_columns : List String :=
  ["ID", "passiveSpEffectId_1", "passiveSpEffectId_2", "passiveSpEffectId_3"]

/-- The eight `allow<Faction>` columns with their faction names, in
source (dict-insertion) order. -/
def allow_columns : List (String × String) :=
  [("allowWylder", "Wylder"), ("allowGuardian", "Guardian"),
   ("allowIroneye", "Ironeye"), ("allowDuchess", "Duchess"),
   ("allowRaider", "Raider"), ("allowRevenant", "Revenant"),
   ("allowRecluse", "Recluse"), ("allowExecutor", "Executor")]

/-- Embedding of `process_csv_row`, given the current `next_id` counter.
Returns `none` exactly when the row is skipped (name lacks both required
literal relic name markers). -/
def process_csv_row (next_id : Nat) (row : Row) : Option Record :=
  let game_ids_raw := game_id_columns.foldl
    (fun acc col =>
      let value := pyStrip (rowGet row col)
      if value ≠ "" ∧ gtZeroStr value then
        match pyInt value with
        | some n => acc ++ [n]
        | none => acc
      else acc) []
  let game_ids := sortedDedup game_ids_raw
  let gameIds := if game_ids ≠ [] then joinIds game_ids else ""
  let name0 := pyStrip (rowGet row "Name")
  let nameParsed : Option String :=
    if pyStartsWith name0 "Character Relic: " then some (dropChars name0 17)
    else if pyStartsWith name0 "Relic: " then some (dropChars name0 7)
    else none
  match nameParsed with
  | none => none
  | some name =>
    let nightfarer_values := allow_columns.foldl
      (fun acc p => if str_to_bool (rowGet row p.1) then acc ++ [p.2] else acc) []
    let nightfarer := if nightfarer_values.length = 1 then nightfarer_values.headD "" else ""
    let attach := pyStrip (rowGet row "attachFilterParamId")
    let level_group_id : Int := if attach = "" then 0 else (pyInt attach).getD 0
    some
      { id := next_id, gameIds := gameIds, name := name,
        debuff := str_to_bool (rowGet row "isDebuff"),
        deep := pyStrip (rowGet row "isNumericEffect") = "0",
        stacks_ := "", nightfarer := nightfarer,
        level_group_id := level_group_id, level_group := "",
        category := "", display_group := "", level := Val.str "" }

/-- Result of the row loop of `import_csv`. -/
structure ImportResult where
  data : List Record
  next_id : Nat
  imported : Nat
  skipped : Nat
deriving DecidableEq

/-- The row loop of `import_csv`, from a given counter value: every row
is processed, accepted rows are appended, and the counter is advanced
for every row, accepted or skipped. -/
def import_rows_from (next_id : Nat) : List Row → ImportResult
  | [] => { data := [], next_id := next_id, imported := 0, skipped := 0 }
  | row :: rest =>
    match process_csv_row next_id row with
    | some r =>
      let res := import_rows_from (next_id + 1) rest
      { res with data := r :: res.data, imported := res.imported + 1 }
    | none =>
      let res := import_rows_from (next_id + 1) rest
      { res with skipped := res.skipped + 1 }

/-- The row loop of `import_csv` (counter reset to 1 beforehand). -/
def import_rows (rows : List Row) : ImportResult := import_rows_from 1 rows

/-- Embedding of `standardize_names_silent`, first pass: records with a
nonempty nightfarer and name get nightfarer formatting. -/
def standardize_pass1 (data : List Record) : List Record :=
  data.map (fun item =>
    let nightfarer := pyStrip item.nightfarer
    let name := pyStrip item.name
    if nightfarer ≠ "" ∧ name ≠ "" then
      { item with name := standardize_name name (some nightfarer) }
    else item)

/-- Embedding of `standardize_names_silent`, second pass: names still
lacking bracket form get the untargeted scan. -/
def standardize_pass2 (data : List Record) : List Record :=
  data.map (fun item =>
    let name := pyStrip item.name
    if name ≠ "" ∧ ¬ nightfarer_names.any (fun nf => pyStartsWith name (bracketTag nf)) then
      { item with name := standardize_name name none }
    else item)

/-- Embedding of `standardize_names_silent`: two standardization passes,
then duplicate merging. -/
def standardize_names_silent (data : List Record) : List Record :=
  merge_duplicate_names (standardize_pass2 (standardize_pass1 data))

/-- Python `min(names, key=len)`: first string of minimal length. -/
def pyMinByLen : List String → String
  | [] => ""
  | x :: xs => xs.foldl (fun best y => if pyLen y < pyLen best then y else best) x

/-- Python `max(candidates, key=len)`: first string of maximal length. -/
def pyMaxByLen : List String → String
  | [] => ""
  | x :: xs => xs.foldl (fun best y => if pyLen y > pyLen best then y else best) x

/-- Python `s.rstrip()` on characters. -/
def rstripWs (cs : List Char) : List Char := dropTrailWs cs

/-- Python `s.rstrip('+')` on characters. -/
def rstripPlus (cs : List Char) : List Char := ((cs.reverse.dropWhile (fun c => c = '+'))).reverse

/-- Python `s.lstrip()` on characters. -/
def lstripWs (cs : List Char) : List Char := cs.dropWhile Char.isWhitespace

/-- Last character of a character list, if any (Python `s.endswith(c)`
for one-character `c` is a test on this). -/
def lastChar (cs : List Char) : Option Char := cs.getLast?

/-- Character-list containment test (Python `sub in hay`). -/
def isSubstrL (needle hay : List Char) : Bool :=
  (List.range (hay.length + 1)).any (fun k => needle.isPrefixOf (hay.drop k))

/-- Python `hay.find(needle)`: position of the first occurrence, `-1`
when absent. -/
def pyFindL (hay needle : List Char) : Int :=
  match (List.range (hay.length + 1)).find? (fun k => needle.isPrefixOf (hay.drop k)) with
  | some k => (k : Int)
  | none => -1

/-- `collections.Counter(l).most_common(1)[0][0]`: most frequent value,
ties resolved to the first-seen value (Counter keeps insertion order and
`sorted` is stable). -/
def mostCommon (l : List (List Char)) : List Char :=
  let uniq := l.foldl (fun acc x => if x ∈ acc then acc else acc ++ [x]) []
  let best := uniq.foldl
    (fun best x =>
      match best with
      | none => some (x, l.count x)
      | some p => if l.count x > p.2 then some (x, l.count x) else best) none
  ((best.map (fun p => p.1)).getD [])

/-- Loop of `find_common_prefix` over character positions: extend while
every (long-enough) name agrees. -/
def common_pre_loop (names : List String) : List Char → Nat → List Char
  | [], _ => []
  | c :: rest, i =>
    if names.all (fun n => decide (pyLen n ≤ i) || (n.data.getD i ' ' = c)) then
      c :: common_pre_loop names rest (i + 1)
    else []

/-- Embedding of `find_common_prefix` (named without the reserved
suffix): accepted only when longer than three characters and ending at a
separator. -/
def find_common_pre (names : List String) : String :=
  if names = [] then ""
  else
    let shortest := pyMinByLen names
    let cp := common_pre_loop names shortest.data 0
    if cp.length > 3 ∧ (lastChar cp = some ' ' ∨ lastChar cp = some '-' ∨ lastChar cp = some ',') then
      ⟨rstripWs cp⟩
    else ""

/-- Loop of `find_common_suffix`, over positions from the right (input
and output reversed). -/
def common_suf_loop (names : List String) : List Char → Nat → List Char
  | [], _ => []
  | c :: rest, i =>
    if names.all (fun n => decide (pyLen n < i) || (n.data.getD (pyLen n - i) ' ' = c)) then
      c :: common_suf_loop names rest (i + 1)
    else []

/-- Embedding of `find_common_suffix`: accepted only when longer than
three characters and starting at a separator. -/
def find_common_suffix (names : List String) : String :=
  if names = [] then ""
  else
    let shortest := pyMinByLen names
    let cs := (common_suf_loop names shortest.data.reverse 1).reverse
    if cs.length > 3 ∧ (cs.headD ' ' = ' ' ∨ cs.headD ' ' = '-' ∨ cs.headD ' ' = ',') then
      ⟨lstripWs cs⟩
    else ""

/-- Loop of `find_common_words`: common leading words of all word lists. -/
def common_words_loop (word_lists : List (List String)) : Nat → Nat → List String
  | 0, _ => []
  | fuel + 1, i =>
    let word := (word_lists.headD []).getD i ""
    if word_lists.all (fun ws => ws.getD i "" = word) then
      word :: common_words_loop word_lists fuel (i + 1)
    else []

/-- Embedding of `find_common_words`. -/
def find_common_words (names : List String) : String :=
  if names = [] then ""
  else
    let word_lists := names.map pyWords
    if word_lists = [] ∨ word_lists.headD [] = [] then ""
    else
      let min_words := (word_lists.map List.length).foldl min ((word_lists.headD []).length)
      let common_words := common_words_loop word_lists min_words 0
      if common_words ≠ [] then " ".intercalate common_words else ""

/-- One `(i, j)` step of the substring search of
`find_longest_common_substring`: state is (best substring so far, best
substring in its most common casing). -/
def lcs_step (names : List String) (shortest : List Char)
    (st : List Char × List Char) (i j : Nat) : List Char × List Char :=
  let substring := (shortest.drop i).take (j - i)
  let subLower := substring.map Char.toLower
  if names.all (fun n => isSubstrL subLower (pyLower n).data) then
    if substring.length > st.1.length ∧
        (lastChar substring = some ' ' ∨ lastChar substring = some '-' ∨
         lastChar substring = some ',' ∨ decide (substring.length ≥ 10)) then
      let case_versions := names.foldl
        (fun acc n =>
          if isSubstrL subLower (pyLower n).data then
            let pos := pyFindL (pyLower n).data subLower
            if pos ≠ -1 then acc ++ [(n.data.drop pos.toNat).take substring.length] else acc
          else acc) []
      if case_versions ≠ [] then (substring, mostCommon case_versions) else (substring, st.2)
    else st
  else st

/-- Embedding of `find_longest_common_substring` (case-insensitive
search, casing restored by frequency, boundary/length filter, trailing
`+` cleanup, capitalization). -/
def find_longest_common_substring (names : List String) : String :=
  if names.length < 2 then ""
  else
    let shortest := (pyMinByLen names).data
    if shortest.length < 3 then ""
    else
      let res := (List.range shortest.length).foldl
        (fun st i =>
          (List.range' (i + 3) (shortest.length + 1 - (i + 3))).foldl
            (fun st j => lcs_step names shortest st i j) st)
        ([], [])
      let lcoc := res.2
      if lcoc ≠ [] then
        let lcoc :=
          if lastChar (rstripWs lcoc) = some '+' then rstripWs (rstripPlus (rstripWs lcoc))
          else lcoc
        let lcoc :=
          if lcoc ≠ [] ∧ pyStripL lcoc ≠ [] ∧ ((pyStripL lcoc).headD ' ').isLower then
            match pyStripL lcoc with
            | [] => []
            | c :: rest => c.toUpper :: rest
          else lcoc
        ⟨rstripWs lcoc⟩
      else ""

/-- Embedding of `find_common_text`: the four candidates over names with
faction brackets stripped; the longest accepted candidate wins, with its
first character capitalized when lowercase. -/
def find_common_text (names : List String) : String :=
  if names.length < 2 then ""
  else
    let clean_names := (names.filter (fun n => pyStrip n ≠ "")).map
      (fun n => pyStrip (clean_name n))
    if clean_names.length < 2 then ""
    else
      let candidates := [find_common_pre clean_names, find_common_suffix clean_names,
        find_common_words clean_names, find_longest_common_substring clean_names]
      let candidates := candidates.filter (fun c => c ≠ "" ∧ pyStrip c ≠ "")
      if candidates ≠ [] then
        let result := pyStrip (pyMaxByLen candidates)
        match result.data with
        | [] => result
        | c :: rest => if c.isLower then ⟨c.toUpper :: rest⟩ else result
      else ""

/-- Embedding of `extract_level_from_name`: the regex `' \+(\d+)$'`. -/
def extract_level_from_name (name : String) : Option Nat :=
  let cs := name.data
  let ds := (cs.reverse.takeWhile Char.isDigit).reverse
  if ds = [] then none
  else
    match (cs.take (cs.length - ds.length)).reverse with
    | '+' :: ' ' :: _ => some (ds.foldl (fun acc c => 10 * acc + digitVal c) 0)
    | _ => none

/-- Embedding of `prefill_levels_for_level_group` on the positions of one
level group: extract the trailing `+N` of each current name; with mixed
suffix/no-suffix names, no-suffix means level 1 and `+N` means `N + 1`;
with suffixes only, the level is `N`; with no suffixes, nothing is
written. -/
def prefill_levels_for_level_group (data : List Record) (idxs : List Nat) : List Record :=
  if idxs.length < 2 then data
  else
    let level_info := idxs.map
      (fun i => (i, extract_level_from_name (pyStrip (recAt data i).name)))
    let has_no_number := level_info.any (fun p => p.2 = none)
    let has_numbers := level_info.any (fun p => p.2.isSome)
    if has_no_number ∧ has_numbers then
      level_info.foldl
        (fun d p =>
          match p.2 with
          | none => modifyAt d p.1 (fun r => { r with level := Val.int 1 })
          | some l => modifyAt d p.1 (fun r => { r with level := Val.int (l + 1) })) data
    else if has_numbers ∧ ¬ has_no_number then
      level_info.foldl
        (fun d p =>
          match p.2 with
          | some l => modifyAt d p.1 (fun r => { r with level := Val.int l })
          | none => d) data
    else data

/-- First pass of `prefill_auto_fields`: display group from a leading
`[Faction]` bracket, category `Debuff` for debuff records with no
category yet. -/
def prefill_pass1 (data : List Record) : List Record :=
  data.map (fun item =>
    let name := pyStrip item.name
    let item : Record :=
      if pyStartsWith name "[" ∧ (']' ∈ name.data) then
        let end_bracket := (pyFindL name.data [']']).toNat
        if end_bracket > 1 then
          let nightfarer_name := pyStrip (sliceChars name 1 end_bracket)
          if nightfarer_name ≠ "" then { item with display_group := nightfarer_name }
          else item
        else item
      else item
    if item.debuff ∧ pyStrip item.category = "" then { item with category := "Debuff" }
    else item)

/-- The `items_by_level_group_id` grouping of `prefill_auto_fields`. -/
def level_group_groups (data : List Record) : List (Int × List Nat) :=
  buildGroups (data.enum.map (fun p => (p.1, p.2.level_group_id)))

/-- Embedding of `prefill_auto_fields`: first pass, then for every level
group with more than one member, write the common text into
`level_group` (when nonempty) and pre-fill levels. -/
def prefill_auto_fields (data : List Record) : List Record :=
  let data := prefill_pass1 data
  (level_group_groups data).foldl
    (fun d g =>
      if g.2.length > 1 then
        let common_text := find_common_text (g.2.map (fun i => (recAt d i).name))
        let d2 :=
          if common_text ≠ "" then
            g.2.foldl (fun d i => modifyAt d i (fun r => { r with level_group := common_text })) d
          else d
        prefill_levels_for_level_group d2 g.2
      else d)
    data

/-- Application state outside the widgets: the record list, the id
counter, the five used-value sets and the sort state. -/
structure AppState where
  data : List Record
  next_id : Nat
  used_categories : Finset String
  used_display_groups : Finset String
  used_level_groups : Finset String
  used_levels : Finset String
  used_stacks : Finset String
  sort_column : Option String
  sort_reverse : Bool
deriving DecidableEq

/-- Embedding of `import_csv`.  The counter reset and the clearing of
`data` and of four used-value sets happen before the file is opened, so
a file whose open or decode fails (`none`) leaves the state cleared;
`used_level_groups` is not in the source's clearing block either way.
On success the row loop runs and, when anything was imported, the
standardization/merge and auto-fill passes follow. -/
def import_csv (st : AppState) (file : Option (List Row)) : AppState :=
  let cleared : AppState :=
    { st with
      data := []
      next_id := 1
      used_categories := ∅
      used_display_groups := ∅
      used_levels := ∅
      used_stacks := ∅ }
  match file with
  | none => cleared
  | some rows =>
    let res := import_rows rows
    let data :=
      if res.imported > 0 then prefill_auto_fields (standardize_names_silent res.data)
      else res.data
    { cleared with data := data, next_id := res.next_id }

/-- Shape of one exported JSON object: exactly the keys `export_json` can
emit, each `none` when the key is dropped for that record.  `deep` and
`debuff` are always present (a bool never equals `''`); `id` and
`level_group_id` are excluded by the source unconditionally. -/
structure ExportRecord where
  ids : Option (List Int)
  name : Option String
  debuff : Bool
  deep : Bool
  stacks_ : Option Bool
  nightfarer : Option String
  level_group : Option String
  category : Option String
  display_group : Option String
  level : Option Val
deriving DecidableEq

/-- Embedding of the per-item transformation of `export_json`: drop empty
strings, drop `id`/`level_group_id`, turn `gameIds` into the sorted int
array `ids` (omitted when empty), turn `stacks` `"Yes"`/`"No"` into
booleans and drop any other value, pass the rest through. -/
def export_json_item (item : Record) : ExportRecord :=
  { ids :=
      if item.gameIds = "" then none
      else
        let ids_list := parse_game_ids item.gameIds
        if ids_list ≠ [] then some ids_list else none
    name := if item.name = "" then none else some item.name
    debuff := item.debuff
    deep := item.deep
    stacks_ :=
      if item.stacks_ = "" then none
      else if item.stacks_ = "Yes" then some true
      else if item.stacks_ = "No" then some false
      else none
    nightfarer := if item.nightfarer = "" then none else some item.nightfarer
    level_group := if item.level_group = "" then none else some item.level_group
    category := if item.category = "" then none else some item.category
    display_group := if item.display_group = "" then none else some item.display_group
    level :=
      match item.level with
      | Val.str s => if s = "" then none else some (Val.str s)
      | v => some v }

/-- Embedding of `export_json` (minus the file write): the transformed
record list in dataset order. -/
def export_json_records (data : List Record) : List ExportRecord :=
  data.map export_json_item

/-- One record as stored in a project snapshot: the current fields plus
the two legacy per-record keys older snapshots may carry. -/
structure SnapRecord where
  record : Record
  stack_id : Option Int
  stack_group : Option String
deriving DecidableEq

/-- A project snapshot object.  `Option` marks keys the loader reads
with `get` defaults or validates for presence. -/
structure Project where
  version : String
  data : Option (List SnapRecord)
  next_id : Option Nat
  used_categories : Option (List String)
  used_display_groups : Option (List String)
  used_level_groups : Option (List String)
  used_stack_groups : Option (List String)
  used_levels : Option (List String)
  used_stacks : Option (List String)
  sort_column : Option String
  sort_reverse : Option Bool
deriving DecidableEq

/-- Embedding of `save_project` (minus the file write): refuses an empty
dataset, otherwise serializes the full state under version `"1.0"`.
Python writes each used-value set as `list(set)`, whose order is
unspecified; the embedding fixes the sorted order. -/
def save_project (st : AppState) : Option Project :=
  if st.data = [] then none
  else some
    { version := "1.0"
      data := some (st.data.map (fun r => ⟨r, none, none⟩))
      next_id := some st.next_id
      used_categories := some (st.used_categories.sort (· ≤ ·))
      used_display_groups := some (st.used_display_groups.sort (· ≤ ·))
      used_level_groups := some (st.used_level_groups.sort (· ≤ ·))
      used_stack_groups := none
      used_levels := some (st.used_levels.sort (· ≤ ·))
      used_stacks := some (st.used_stacks.sort (· ≤ ·))
      sort_column := st.sort_column
      sort_reverse := some st.sort_reverse }

/-- Per-record key renames of `migrate_project_data`. -/
def snap_migrate_item (sr : SnapRecord) : SnapRecord :=
  let sr : SnapRecord :=
    match sr.stack_id with
    | some v => { sr with record := { sr.record with level_group_id := v }, stack_id := none }
    | none => sr
  match sr.stack_group with
  | some s => { sr with record := { sr.record with level_group := s }, stack_group := none }
  | none => sr

/-- The old-field-name scan of `migrate_project_data`. -/
def needs_migration (p : Project) : Bool :=
  (match p.data with
   | some l => l.any (fun sr => sr.stack_id.isSome || sr.stack_group.isSome)
   | none => false) || p.used_stack_groups.isSome

/-- Embedding of `migrate_project_data`: pure key renames
(`stack_id` to `level_group_id`, `stack_group` to `level_group`,
`used_stack_groups` to `used_level_groups`), only when an old key is
present. -/
def migrate_project_data (p : Project) : Project :=
  if needs_migration p then
    let p : Project := { p with data := p.data.map (fun l => l.map snap_migrate_item) }
    match p.used_stack_groups with
    | some l => { p with used_level_groups := some l, used_stack_groups := none }
    | none => p
  else p

/-- Embedding of `load_project` (minus the file read): migrate, validate
that `data` and `next_id` are present (otherwise the state is left
unchanged), then replace the whole state. -/
def load_project (st : AppState) (p : Project) : AppState :=
  let p := migrate_project_data p
  if p.data.isNone ∨ p.next_id.isNone then st
  else
    { data := (p.data.getD []).map (fun sr => sr.record)
      next_id := p.next_id.getD 1
      used_categories := (p.used_categories.getD []).toFinset
      used_display_groups := (p.used_display_groups.getD []).toFinset
      used_level_groups := (p.used_level_groups.getD []).toFinset
      used_levels := (p.used_levels.getD []).toFinset
      used_stacks := (p.used_stacks.getD []).toFinset
      sort_column := p.sort_column
      sort_reverse := p.sort_reverse.getD false }

/-- Record builder for concrete test data: an ingested-shape record with
the given id, name, gameIds string and level group id. -/
def sampleRec (i : Nat) (nm gids : String) (lgid : Int) : Record :=
  { id := i, gameIds := gids, name := nm, debuff := false, deep := false,
    stacks_ := "", nightfarer := "", level_group_id := lgid, level_group := "",
    category := "", display_group := "", level := Val.str "" }

/-- Three records on which duplicate merging is not idempotent: the
pair (1, 2) is checked before the merge of (1, 3) hands record 1 the
name and gameIds that make it mergeable with record 2. -/
def dupExample : List Record :=
  [sampleRec 1 "Foo Bar" "1" 0,
   sampleRec 2 "Foo Bar Baz" "2" 0,
   sampleRec 3 "Foo Bar Baz Qux" "1, 2" 0]

/-- A sample application state with two records and nonempty used-value
sets. -/
def sampleState : AppState :=
  { data := [sampleRec 1 "X" "1" 7, sampleRec 2 "X +1" "2" 7], next_id := 3,
    used_categories := {"Buff"}, used_display_groups := ∅,
    used_level_groups := {"G"}, used_levels := ∅, used_stacks := {"Yes"},
    sort_column := some "name", sort_reverse := true }

/-- A CSV row whose `ID` cell is the string `00`. -/
def zeroIdRow : Row := [("Name", "Relic: A"), ("ID", "00")]

/-- Equality on every record field that is neither `name` nor `gameIds`. -/
def frameEq (r s : Record) : Prop :=
  r.id = s.id ∧ r.debuff = s.debuff ∧ r.deep = s.deep ∧ r.stacks_ = s.stacks_
  ∧ r.nightfarer = s.nightfarer ∧ r.level_group_id = s.level_group_id
  ∧ r.level_group = s.level_group ∧ r.category = s.category
  ∧ r.display_group = s.display_group ∧ r.level = s.level

/-- Pairwise distinctness of the nonempty stripped names over the alive
(not-removed) positions of a merge state. -/
def NamesInjSt (st : MergeSt) : Prop :=
  ∀ i j, i < st.1.length → j < st.1.length → i ∉ st.2 → j ∉ st.2 →
    pyStrip (recAt st.1 i).name ≠ "" →
    pyStrip (recAt st.1 i).name = pyStrip (recAt st.1 j).name → i = j

/-- C1, counterexample: merging `dupExample` leaves two records whose
names became truncated variants with a shared gameId only after their
pair had already been checked, so a second run of
`merge_duplicate_names` merges again — the merger is not idempotent. -/
theorem merge_duplicate_names_not_idempotent :
    merge_duplicate_names (merge_duplicate_names dupExample) ≠ merge_duplicate_names dupExample := by
  decide

/-- C2, state clobbering: `import_csv` clears the dataset and counters
before the file is opened, so a failed read (`none`) leaves the cleared
state, not the prior one. -/
theorem import_csv_failed_read_clobbers_state :
    import_csv sampleState none ≠ sampleState
    ∧ (import_csv sampleState none).data = [] ∧ sampleState.data ≠ [] := by
  refine ⟨by decide, rfl, by decide⟩

/-- C4: processing an import empties exactly four of the five used-value
sets; `used_level_groups` always keeps its prior contents. -/
theorem import_csv_used_value_sets (st : AppState) (rows : List Row) :
    (import_csv st (some rows)).used_level_groups = st.used_level_groups
    ∧ (import_csv st (some rows)).used_categories = ∅
    ∧ (import_csv st (some rows)).used_display_groups = ∅
    ∧ (import_csv st (some rows)).used_levels = ∅
    ∧ (import_csv st (some rows)).used_stacks = ∅ :=
  ⟨rfl, rfl, rfl, rfl, rfl⟩

/-- C5: the cell `"00"` passes the lexicographic `value > '0'` filter of
`process_csv_row` and parses to the integer 0, so the ingested gameIds
contain 0. -/
theorem process_csv_row_keeps_zero_game_id :
    (process_csv_row 1 zeroIdRow).map (fun r => r.gameIds) = some "0"
    ∧ parse_game_ids ((process_csv_row 1 zeroIdRow).getD default).gameIds = [0] := by
  refine ⟨by decide, by decide⟩

/-- C8: a level group (id 7) named `X`, `X +1`, `X +2` is auto-filled
with levels 1, 2, 3 and level group label `X`. -/
theorem prefill_auto_fields_example :
    (prefill_auto_fields
        [sampleRec 1 "X" "1" 7, sampleRec 2 "X +1" "2" 7, sampleRec 3 "X +2" "3" 7]).map
        (fun r => (r.level_group, r.level))
      = [("X", Val.int 1), ("X", Val.int 2), ("X", Val.int 3)] := by
  decide

/-- C10: the exported object carries the key `stacks` exactly when the
record's stacks cell is the literal `"Yes"` (exported as `true`) or
`"No"` (exported as `false`); any other value is dropped. -/
theorem export_json_stacks_key_iff (item : Record) :
    ((export_json_item item).stacks_ = some true ↔ item.stacks_ = "Yes")
    ∧ ((export_json_item item).stacks_ = some false ↔ item.stacks_ = "No")
    ∧ ((export_json_item item).stacks_ = none ↔ item.stacks_ ≠ "Yes" ∧ item.stacks_ ≠ "No") := by
  have hYE : ("Yes" : String) ≠ "" := by decide
  have hNE : ("No" : String) ≠ "" := by decide
  have hYN : ("Yes" : String) ≠ "No" := by decide
  have hNY : ("No" : String) ≠ "Yes" := by decide
  have hEY : ("" : String) ≠ "Yes" := by decide
  have hEN : ("" : String) ≠ "No" := by decide
  simp only [export_json_item]
  by_cases h1 : item.stacks_ = ""
  · simp [h1, hEY, hEN]
  · by_cases h2 : item.stacks_ = "Yes"
    · simp [h2, hYE, hYN]
    · by_cases h3 : item.stacks_ = "No"
      · simp [h3, hNE, hNY]
      · simp [h1, h2, h3]

theorem length_modifyAt (l : List α) (n : Nat) (f : α → α) :
    (modifyAt l n f).length = l.length := by
  induction l generalizing n with
  | nil => rfl
  | cons x xs ih =>
    cases n with
    | zero => rfl
    | succ m => simp [modifyAt, ih]

theorem getD_modifyAt_ne (l : List α) (n m : Nat) (f : α → α) (d : α) (h : m ≠ n) :
    (modifyAt l n f).getD m d = l.getD m d := by
  induction l generalizing n m with
  | nil => rfl
  | cons x xs ih =>
    cases n with
    | zero =>
      cases m with
      | zero => exact absurd rfl h
      | succ m2 => simp [modifyAt]
    | succ n2 =>
      cases m with
      | zero => rfl
      | succ m2 => simpa [modifyAt] using ih n2 m2 (fun hc => h (by omega))

theorem getD_modifyAt_cases (l : List α) (n m : Nat) (f : α → α) (d : α) :
    (modifyAt l n f).getD m d = l.getD m d
    ∨ ((modifyAt l n f).getD m d = f (l.getD m d) ∧ m = n) := by
  induction l generalizing n m with
  | nil => exact Or.inl rfl
  | cons x xs ih =>
    cases n with
    | zero =>
      cases m with
      | zero => exact Or.inr ⟨rfl, rfl⟩
      | succ m2 => exact Or.inl (by simp [modifyAt])
    | succ n2 =>
      cases m with
      | zero => exact Or.inl rfl
      | succ m2 =>
        rcases ih n2 m2 with h | ⟨h1, h2⟩
        · exact Or.inl (by simpa [modifyAt] using h)
        · exact Or.inr ⟨by simpa [modifyAt] using h1, by omega⟩

theorem getD_modifyAt_self (l : List α) (n : Nat) (f : α → α) (d : α) (h : n < l.length) :
    (modifyAt l n f).getD n d = f (l.getD n d) := by
  induction l generalizing n with
  | nil => exact absurd h (by simp)
  | cons x xs ih =>
    cases n with
    | zero => rfl
    | succ n2 => simpa [modifyAt] using ih n2 (by simpa using h)

theorem mem_insertLe (le : α → α → Bool) (x a : α) (l : List α) :
    a ∈ insertLe le x l ↔ a = x ∨ a ∈ l := by
  induction l with
  | nil => simp [insertLe]
  | cons y ys ih =>
    by_cases h : le y x
    · simp only [insertLe, if_pos h, List.mem_cons, ih]
      tauto
    · simp only [insertLe, if_neg h, List.mem_cons]

theorem mem_sortByLe (le : α → α → Bool) (a : α) (l : List α) :
    a ∈ sortByLe le l ↔ a ∈ l := by
  induction l with
  | nil => simp [sortByLe]
  | cons x xs ih => simp [sortByLe, mem_insertLe, ih]

theorem frameEq_refl (r : Record) : frameEq r r :=
  ⟨rfl, rfl, rfl, rfl, rfl, rfl, rfl, rfl, rfl, rfl⟩

theorem frameEq_of_update (data : List Record) (n k : Nat) (f : Record → Record)
    (hf : ∀ r, frameEq (f r) r) :
    frameEq (recAt (modifyAt data n f) k) (recAt data k) := by
  rcases getD_modifyAt_cases data n k f default with h | ⟨h, _⟩
  · rw [recAt, h]; exact frameEq_refl _
  · rw [recAt, h]; exact hf _

theorem name_of_update (data : List Record) (n k : Nat) (f : Record → Record)
    (hf : ∀ r, (f r).name = r.name) :
    (recAt (modifyAt data n f) k).name = (recAt data k).name := by
  rcases getD_modifyAt_cases data n k f default with h | ⟨h, _⟩
  · rw [recAt, h]; rfl
  · rw [recAt, h]; exact hf _

/-- C9, the frame of both merge phases: `merge_items` can change only
the kept record's `gameIds` (names included in the frame here), a
truncated-pair merge can change only `name` and `gameIds` of its two
positions, and every position outside the touched set is untouched. -/
theorem merge_phases_frame (data : List Record) (removed : List Nat)
    (idxs : List Nat) (i j k : Nat) :
    (frameEq (recAt (merge_items (data, removed) idxs).1 k) (recAt data k)
      ∧ (recAt (merge_items (data, removed) idxs).1 k).name = (recAt data k).name)
    ∧ (k ∉ idxs → recAt (merge_items (data, removed) idxs).1 k = recAt data k)
    ∧ frameEq (recAt (merge_truncated_pair data removed i j).1 k) (recAt data k)
    ∧ (k ≠ i → k ≠ j → recAt (merge_truncated_pair data removed i j).1 k = recAt data k) := by
  have hframe : ∀ r : Record, ∀ g : String, frameEq { r with gameIds := g } r :=
    fun r g => ⟨rfl, rfl, rfl, rfl, rfl, rfl, rfl, rfl, rfl, rfl⟩
  have hframe2 : ∀ r : Record, ∀ n : String, frameEq { r with name := n } r :=
    fun r n => ⟨rfl, rfl, rfl, rfl, rfl, rfl, rfl, rfl, rfl, rfl⟩
  have htrans : ∀ a b c : Record, frameEq a b → frameEq b c → frameEq a c := by
    intro a b c h1 h2
    obtain ⟨p1, p2, p3, p4, p5, p6, p7, p8, p9, p10⟩ := h1
    obtain ⟨q1, q2, q3, q4, q5, q6, q7, q8, q9, q10⟩ := h2
    exact ⟨p1.trans q1, p2.trans q2, p3.trans q3, p4.trans q4, p5.trans q5,
      p6.trans q6, p7.trans q7, p8.trans q8, p9.trans q9, p10.trans q10⟩
  have hmi :
      (frameEq (recAt (merge_items (data, removed) idxs).1 k) (recAt data k)
        ∧ (recAt (merge_items (data, removed) idxs).1 k).name = (recAt data k).name)
      ∧ (k ∉ idxs → recAt (merge_items (data, removed) idxs).1 k = recAt data k) := by
    unfold merge_items
    cases hs : sortByLe
        (fun a b => (recAt (data, removed).1 a).id ≤ (recAt (data, removed).1 b).id) idxs with
    | nil => exact ⟨⟨frameEq_refl _, rfl⟩, fun _ => rfl⟩
    | cons keep rest =>
      have hkeep : keep ∈ idxs := by
        have hmem : keep ∈ sortByLe
            (fun a b => (recAt (data, removed).1 a).id ≤ (recAt (data, removed).1 b).id) idxs := by
          rw [hs]; exact List.mem_cons_self _ _
        exact (mem_sortByLe _ _ _).mp hmem
      unfold merge_items_sorted
      by_cases hg : group_game_ids (data, removed).1 (keep :: rest) ≠ []
      · simp only [if_pos hg]
        refine ⟨⟨frameEq_of_update _ _ _ _ (fun r => hframe r _),
          name_of_update _ _ _ _ (fun r => rfl)⟩, ?_⟩
        intro hk
        exact getD_modifyAt_ne _ _ _ _ _ (fun hc => hk (hc ▸ hkeep))
      · simp only [if_neg hg]
        exact ⟨⟨frameEq_refl _, trivial⟩, fun _ => trivial⟩
  have hkeepij : mtp_keep data i j = i ∨ mtp_keep data i j = j := by
    unfold mtp_keep
    by_cases h : (recAt data i).id < (recAt data j).id
    · exact Or.inl (if_pos h)
    · exact Or.inr (if_neg h)
  have h1f : frameEq (recAt (mtp_data1 data i j) k) (recAt data k)
      ∧ (k ≠ mtp_keep data i j → recAt (mtp_data1 data i j) k = recAt data k) := by
    unfold mtp_data1
    by_cases h : pyLen (pyStrip (recAt data j).name) > pyLen (pyStrip (recAt data i).name)
    · simp only [if_pos h]
      exact ⟨frameEq_of_update _ _ _ _ (fun r => hframe2 r _),
        fun hk => getD_modifyAt_ne _ _ _ _ _ hk⟩
    · simp only [if_neg h]
      exact ⟨frameEq_refl _, fun _ => trivial⟩
  have h2f : frameEq (recAt (mtp_data2 data i j) k) (recAt (mtp_data1 data i j) k)
      ∧ (k ≠ mtp_keep data i j → recAt (mtp_data2 data i j) k = recAt (mtp_data1 data i j) k) := by
    unfold mtp_data2
    by_cases h : mtp_union data i j ≠ []
    · simp only [if_pos h]
      exact ⟨frameEq_of_update _ _ _ _ (fun r => hframe r _),
        fun hk => getD_modifyAt_ne _ _ _ _ _ hk⟩
    · simp only [if_neg h]
      exact ⟨frameEq_refl _, fun _ => trivial⟩
  refine ⟨hmi.1, hmi.2, ?_, ?_⟩
  · exact htrans _ _ _ h2f.1 h1f.1
  · intro hki hkj
    have hkk : k ≠ mtp_keep data i j := by
      rcases hkeepij with h | h <;> rw [h] <;> assumption
    show recAt (mtp_data2 data i j) k = recAt data k
    rw [h2f.2 hkk, h1f.2 hkk]

/-- C9 witness: position 2 of the three-record example is untouched by a
`merge_items` call on group positions 0 and 1 and by a truncated-pair
merge of positions 0 and 1. -/
theorem merge_phases_frame_witness :
    recAt (merge_items (dupExample, []) [0, 1]).1 2 = recAt dupExample 2
    ∧ recAt (merge_truncated_pair dupExample [] 0 1).1 2 = recAt dupExample 2 :=
  ⟨(merge_phases_frame dupExample [] [0, 1] 0 1 2).2.1 (by decide),
   (merge_phases_frame dupExample [] [0, 1] 0 1 2).2.2.2 (by decide) (by decide)⟩

theorem process_csv_row_id (n : Nat) (row : Row) (r : Record)
    (h : process_csv_row n row = some r) : r.id = n := by
  unfold process_csv_row at h
  dsimp only at h
  split at h
  · exact absurd h (by simp)
  · rw [Option.some_inj] at h
    rw [← h]

theorem process_csv_row_skip (n : Nat) (row : Row)
    (h : ¬ (pyStartsWith (pyStrip (rowGet row "Name")) "Character Relic: "
        ∨ pyStartsWith (pyStrip (rowGet row "Name")) "Relic: ")) :
    process_csv_row n row = none := by
  push_neg at h
  unfold process_csv_row
  dsimp only
  rw [if_neg h.1, if_neg h.2]

theorem import_rows_from_spec (rows : List Row) (nid : Nat) :
    (import_rows_from nid rows).data
      = (List.range rows.length).filterMap (fun k => process_csv_row (nid + k) (rows.getD k []))
    ∧ (import_rows_from nid rows).next_id = nid + rows.length := by
  induction rows generalizing nid with
  | nil => exact ⟨rfl, rfl⟩
  | cons row rest ih =>
    have harith : ∀ k : Nat, nid + (k + 1) = nid + 1 + k := by omega
    have hcomp :
        ((fun k => process_csv_row (nid + k) ((row :: rest).getD k [])) ∘ Nat.succ)
          = fun k => process_csv_row (nid + 1 + k) (rest.getD k []) := by
      funext k
      show process_csv_row (nid + (k + 1)) ((row :: rest).getD (k + 1) []) = _
      rw [harith k, List.getD_cons_succ]
    have hrange :
        (List.range (row :: rest).length).filterMap
            (fun k => process_csv_row (nid + k) ((row :: rest).getD k []))
          = (match process_csv_row nid row with
              | some r => r :: (List.range rest.length).filterMap
                  (fun k => process_csv_row (nid + 1 + k) (rest.getD k []))
              | none => (List.range rest.length).filterMap
                  (fun k => process_csv_row (nid + 1 + k) (rest.getD k []))) := by
      rw [List.length_cons, List.range_succ_eq_map, List.filterMap_cons, List.filterMap_map, hcomp]
      have h0 : process_csv_row (nid + 0) ((row :: rest).getD 0 []) = process_csv_row nid row := by
        rw [Nat.add_zero, List.getD_cons_zero]
      rw [h0]
      cases process_csv_row nid row <;> rfl
    unfold import_rows_from
    cases hp : process_csv_row nid row with
    | some r =>
      rw [hrange, hp]
      dsimp only
      refine ⟨congrArg (r :: ·) (ih (nid + 1)).1, ?_⟩
      have h2 := (ih (nid + 1)).2
      simp only [h2, List.length_cons]
      omega
    | none =>
      rw [hrange, hp]
      dsimp only
      refine ⟨(ih (nid + 1)).1, ?_⟩
      have h2 := (ih (nid + 1)).2
      simp only [h2, List.length_cons]
      omega

/-- C6: rows lacking both required name markers produce no record yet
still advance the id counter: the imported data is exactly the
row-position-indexed filterMap of `process_csv_row`, the final counter is
the row count plus one, a bad-name row maps to `none`, and every
ingested record's id points back at its source row position. -/
theorem import_rows_tracks_row_position (rows : List Row) :
    (import_rows rows).data
      = (List.range rows.length).filterMap (fun k => process_csv_row (k + 1) (rows.getD k []))
    ∧ (import_rows rows).next_id = rows.length + 1
    ∧ (∀ k, k < rows.length →
        ¬ (pyStartsWith (pyStrip (rowGet (rows.getD k []) "Name")) "Character Relic: "
            ∨ pyStartsWith (pyStrip (rowGet (rows.getD k []) "Name")) "Relic: ") →
        process_csv_row (k + 1) (rows.getD k []) = none)
    ∧ ∀ r ∈ (import_rows rows).data,
        1 ≤ r.id ∧ r.id ≤ rows.length
          ∧ process_csv_row r.id (rows.getD (r.id - 1) []) = some r := by
  have hspec := import_rows_from_spec rows 1
  have hdata : (import_rows rows).data
      = (List.range rows.length).filterMap (fun k => process_csv_row (k + 1) (rows.getD k [])) := by
    rw [import_rows, hspec.1]
    apply List.filterMap_congr
    intro k _
    rw [Nat.add_comm 1 k]
  refine ⟨hdata, ?_, ?_, ?_⟩
  · rw [import_rows, hspec.2]; omega
  · intro k _ hname
    exact process_csv_row_skip (k + 1) (rows.getD k []) hname
  · intro r hr
    rw [hdata] at hr
    obtain ⟨k, hk, hpk⟩ := List.mem_filterMap.mp hr
    have hklt : k < rows.length := List.mem_range.mp hk
    have hid : r.id = k + 1 := process_csv_row_id _ _ _ hpk
    refine ⟨by omega, by omega, ?_⟩
    rw [hid]
    simpa using hpk

/-- C6 witness: the first of two concrete rows lacks both name markers,
is skipped, and the counter still reaches 3. -/
theorem import_rows_tracks_row_position_witness :
    process_csv_row 1 (([[("Name", "x")], [("Name", "Relic: B"), ("ID", "7")]] : List Row).getD 0 [])
      = none
    ∧ (import_rows [[("Name", "x")], [("Name", "Relic: B"), ("ID", "7")]]).next_id = 3 :=
  ⟨(import_rows_tracks_row_position [[("Name", "x")], [("Name", "Relic: B"), ("ID", "7")]]).2.2.1
      0 (by decide) (by decide),
    (import_rows_tracks_row_position [[("Name", "x")], [("Name", "Relic: B"), ("ID", "7")]]).2.1⟩

theorem digitChar_facts (m : Nat) :
    (digitChar m).isDigit = true ∧ digitChar m ≠ ',' ∧ digitChar m ≠ '-'
    ∧ digitChar m ≠ '+' ∧ (digitChar m).isWhitespace = false := by
  unfold digitChar
  split <;> refine ⟨by decide, by decide, by decide, by decide, by decide⟩

theorem digitVal_digitChar (n : Nat) (h : n < 10) : digitVal (digitChar n) = n := by
  interval_cases n <;> decide

theorem pyDigitsCore_all_digits (ds : List Char) (acc : Nat)
    (h : ∀ c ∈ ds, c.isDigit = true) :
    pyDigitsCore acc ds = some (ds.foldl (fun a c => 10 * a + digitVal c) acc) := by
  induction ds generalizing acc with
  | nil => rfl
  | cons c cs ih =>
    have hc : c.isDigit = true := h c (List.mem_cons_self _ _)
    have hstep : pyDigitsCore acc (c :: cs) = pyDigitsCore (10 * acc + digitVal c) cs := by
      rw [pyDigitsCore.eq_def]
      simp [hc]
    rw [hstep, List.foldl_cons]
    exact ih _ (fun d hd => h d (List.mem_cons_of_mem _ hd))

theorem natDigitsCore_spec (fuel n : Nat) (hf : n < fuel) :
    (∀ c ∈ natDigitsCore fuel n, c.isDigit = true)
    ∧ natDigitsCore fuel n ≠ []
    ∧ ∀ acc, (natDigitsCore fuel n).foldl (fun a c => 10 * a + digitVal c) acc
        = acc * 10 ^ (natDigitsCore fuel n).length + n := by
  induction fuel generalizing n with
  | zero => omega
  | succ fuel ih =>
    by_cases hn : n < 10
    · rw [natDigitsCore, if_pos hn]
      refine ⟨?_, by simp, ?_⟩
      · intro c hc
        rw [List.mem_singleton] at hc
        rw [hc]
        exact (digitChar_facts n).1
      · intro acc
        simp [digitVal_digitChar n hn]
        ring
    · rw [natDigitsCore, if_neg hn]
      have hdiv : n / 10 < fuel := by
        have h1 : n / 10 < n := Nat.div_lt_self (by omega) (by omega)
        omega
      obtain ⟨ihd, ihne, ihval⟩ := ih (n / 10) hdiv
      refine ⟨?_, by simp [ihne], ?_⟩
      · intro c hc
        rcases List.mem_append.mp hc with h | h
        · exact ihd c h
        · rw [List.mem_singleton] at h
          rw [h]
          exact (digitChar_facts _).1
      · intro acc
        rw [List.foldl_append, List.length_append, ihval acc]
        simp only [List.foldl_cons, List.foldl_nil, List.length_singleton]
        rw [digitVal_digitChar _ (Nat.mod_lt _ (by omega))]
        have hmod : 10 * (n / 10) + n % 10 = n := by omega
        rw [pow_succ]
        calc 10 * (acc * 10 ^ (natDigitsCore fuel (n / 10)).length + n / 10) + n % 10
            = acc * (10 ^ (natDigitsCore fuel (n / 10)).length * 10)
              + (10 * (n / 10) + n % 10) := by ring
          _ = acc * (10 ^ (natDigitsCore fuel (n / 10)).length * 10) + n := by rw [hmod]

theorem natDigits_facts (n : Nat) :
    (∀ c ∈ natDigits n, c.isDigit = true) ∧ natDigits n ≠ []
    ∧ (natDigits n).foldl (fun a c => 10 * a + digitVal c) 0 = n := by
  obtain ⟨hd, hne, hval⟩ := natDigitsCore_spec (n + 1) n (by omega)
  exact ⟨hd, hne, by simpa using hval 0⟩

theorem pyDigits_natDigits (n : Nat) : pyDigits (natDigits n) = some n := by
  obtain ⟨hd, hne, hval⟩ := natDigits_facts n
  cases hds : natDigits n with
  | nil => exact absurd hds hne
  | cons c cs =>
    have hc : c.isDigit = true := hd c (hds ▸ List.mem_cons_self _ _)
    rw [pyDigits, if_pos hc,
      pyDigitsCore_all_digits cs _ (fun d hdm => hd d (hds ▸ List.mem_cons_of_mem _ hdm))]
    rw [hds, List.foldl_cons] at hval
    simp only [Nat.mul_zero, Nat.zero_add] at hval
    rw [hval]

theorem dropWhile_of_none (p : Char → Bool) (l : List Char)
    (h : ∀ c ∈ l, p c = false) : l.dropWhile p = l := by
  cases l with
  | nil => rfl
  | cons c cs => simp [List.dropWhile_cons, h c (List.mem_cons_self _ _)]

theorem dropTrailWs_of_none (l : List Char) (h : ∀ c ∈ l, c.isWhitespace = false) :
    dropTrailWs l = l := by
  induction l with
  | nil => rfl
  | cons c cs ih =>
    rw [dropTrailWs]
    have hc : c.isWhitespace = false := h c (List.mem_cons_self _ _)
    simp only [ih (fun d hd => h d (List.mem_cons_of_mem _ hd)), hc]
    simp

theorem pyStripL_of_none (l : List Char) (h : ∀ c ∈ l, c.isWhitespace = false) :
    pyStripL l = l := by
  rw [pyStripL, dropWhile_of_none _ _ h, dropTrailWs_of_none _ h]

theorem isDigit_not_ws (c : Char) (h : c.isDigit = true) : c.isWhitespace = false := by
  cases hw : c.isWhitespace
  · rfl
  · exfalso
    have hw2 := hw
    simp only [Char.isWhitespace, Bool.or_eq_true, decide_eq_true_eq] at hw2
    rcases hw2 with ((h1 | h1) | h1) | h1 <;> (subst h1; exact absurd h (by decide))

theorem isDigit_ne_comma (c : Char) (h : c.isDigit = true) : c ≠ ',' := by
  intro hc
  subst hc
  exact absurd h (by decide)

theorem intToStrL_facts (i : Int) :
    (∀ c ∈ intToStrL i, c ≠ ',' ∧ c.isWhitespace = false) ∧ intToStrL i ≠ [] := by
  unfold intToStrL
  split
  · refine ⟨?_, by simp⟩
    intro c hc
    rcases List.mem_cons.mp hc with h | h
    · rw [h]
      exact ⟨by decide, by decide⟩
    · have hd := (natDigits_facts i.natAbs).1 c h
      exact ⟨isDigit_ne_comma c hd, isDigit_not_ws c hd⟩
  · refine ⟨?_, (natDigits_facts i.natAbs).2.1⟩
    intro c hc
    have hd := (natDigits_facts i.natAbs).1 c hc
    exact ⟨isDigit_ne_comma c hd, isDigit_not_ws c hd⟩

theorem pyInt_intToStr (i : Int) : pyInt ⟨intToStrL i⟩ = some i := by
  have hstrip : pyStripL (intToStrL i) = intToStrL i :=
    pyStripL_of_none _ (fun c hc => ((intToStrL_facts i).1 c hc).2)
  rw [pyInt]
  simp only [hstrip]
  by_cases hneg : i < 0
  · have hl : intToStrL i = '-' :: natDigits i.natAbs := by rw [intToStrL, if_pos hneg]
    rw [hl]
    dsimp only
    have hplus : ¬ (('-' : Char) = '+') := by decide
    rw [if_neg hplus, if_pos rfl, pyDigits_natDigits]
    simp only [Option.map_some']
    congr 1
    simp only [Int.ofNat_eq_natCast]
    omega
  · have hl : intToStrL i = natDigits i.natAbs := by rw [intToStrL, if_neg hneg]
    rw [hl]
    cases hds : natDigits i.natAbs with
    | nil => exact absurd hds (natDigits_facts i.natAbs).2.1
    | cons c cs =>
      have hc : c.isDigit = true := (natDigits_facts i.natAbs).1 c (hds ▸ List.mem_cons_self _ _)
      dsimp only
      rw [if_neg, if_neg]
      · rw [← hds, pyDigits_natDigits]
        simp only [Option.map_some']
        congr 1
        simp only [Int.ofNat_eq_natCast]
        omega
      · intro hcc
        rw [hcc] at hc
        exact absurd hc (by decide)
      · intro hcc
        rw [hcc] at hc
        exact absurd hc (by decide)

theorem splitOnComma_ne_nil (l : List Char) : splitOnComma l ≠ [] := by
  cases l with
  | nil => simp [splitOnComma]
  | cons c cs =>
    rw [splitOnComma]
    by_cases hc : c = ','
    · simp [hc]
    · simp only [if_neg hc]
      cases splitOnComma cs <;> simp

theorem splitOnComma_no_comma (l : List Char) (h : ∀ c ∈ l, c ≠ ',') :
    splitOnComma l = [l] := by
  induction l with
  | nil => rfl
  | cons c cs ih =>
    rw [splitOnComma, if_neg (h c (List.mem_cons_self _ _)),
      ih (fun d hd => h d (List.mem_cons_of_mem _ hd))]

theorem splitOnComma_append (a rest : List Char) (h : ∀ c ∈ a, c ≠ ',') :
    splitOnComma (a ++ ',' :: rest) = a :: splitOnComma rest := by
  induction a with
  | nil => simp [splitOnComma]
  | cons c a2 ih =>
    rw [List.cons_append, splitOnComma, if_neg (h c (List.mem_cons_self _ _)),
      ih (fun d hd => h d (List.mem_cons_of_mem _ hd))]

theorem splitOnComma_cons_space (l : List Char) :
    splitOnComma (' ' :: l)
      = (' ' :: (splitOnComma l).headD []) :: (splitOnComma l).tail := by
  rw [splitOnComma]
  have hs : (' ' : Char) ≠ ',' := by decide
  simp only [if_neg hs]
  cases hl : splitOnComma l with
  | nil => exact absurd hl (splitOnComma_ne_nil l)
  | cons hh tt => rfl

theorem pyStripL_cons_space (l : List Char) : pyStripL (' ' :: l) = pyStripL l := by
  rw [pyStripL, pyStripL, List.dropWhile_cons]
  simp

theorem joinIdsL_ne_nil (u : List Int) (h : u ≠ []) : joinIdsL u ≠ [] := by
  cases u with
  | nil => exact absurd rfl h
  | cons x xs =>
    cases xs with
    | nil => exact (intToStrL_facts x).2
    | cons y ys =>
      rw [joinIdsL]
      intro hc
      exact (intToStrL_facts x).2 (List.append_eq_nil.mp hc).1

theorem parse_pieces_of_join (u : List Int) :
    parseAll (((splitOnComma (joinIdsL u)).map pyStripL).filter (fun p => p ≠ [])) = some u := by
  induction u with
  | nil => rfl
  | cons x xs ih =>
    cases xs with
    | nil =>
      rw [joinIdsL, splitOnComma_no_comma _ (fun c hc => ((intToStrL_facts x).1 c hc).1)]
      have hstrip : pyStripL (intToStrL x) = intToStrL x :=
        pyStripL_of_none _ (fun c hc => ((intToStrL_facts x).1 c hc).2)
      simp only [List.map_cons, List.map_nil, hstrip, List.filter_cons, List.filter_nil]
      rw [if_pos (by simpa using (intToStrL_facts x).2)]
      rw [parseAll, pyInt_intToStr, parseAll]
    | cons y ys =>
      rw [joinIdsL, splitOnComma_append _ _ (fun c hc => ((intToStrL_facts x).1 c hc).1),
        splitOnComma_cons_space]
      have hstrip : pyStripL (intToStrL x) = intToStrL x :=
        pyStripL_of_none _ (fun c hc => ((intToStrL_facts x).1 c hc).2)
      cases hl : splitOnComma (joinIdsL (y :: ys)) with
      | nil => exact absurd hl (splitOnComma_ne_nil _)
      | cons hh tt =>
        rw [hl] at ih
        simp only [List.headD_cons, List.tail_cons, List.map_cons, hstrip,
          pyStripL_cons_space, List.filter_cons]
        rw [if_pos (by simpa using (intToStrL_facts x).2)]
        simp only [List.map_cons, List.filter_cons] at ih
        rw [parseAll, pyInt_intToStr, ih]

theorem parse_game_ids_joinIds (u : List Int) (h : u ≠ []) :
    parse_game_ids (joinIds u) = sortedDedup u := by
  have hne : joinIds u ≠ "" := by
    rw [joinIds]
    intro hc
    have : joinIdsL u = [] := by
      have := congrArg String.data hc
      simpa using this
    exact joinIdsL_ne_nil u h this
  rw [parse_game_ids, if_neg hne]
  have hdata : (joinIds u).data = joinIdsL u := rfl
  rw [hdata, parse_pieces_of_join u]

theorem mem_insertSortedInt (x a : Int) (l : List Int) :
    a ∈ insertSortedInt x l ↔ a = x ∨ a ∈ l := by
  induction l with
  | nil => simp [insertSortedInt]
  | cons y ys ih =>
    rw [insertSortedInt]
    by_cases h1 : x < y
    · simp only [if_pos h1, List.mem_cons]
    · by_cases h2 : x = y
      · simp only [if_neg h1, if_pos h2, List.mem_cons]
        subst h2
        tauto
      · simp only [if_neg h1, if_neg h2, List.mem_cons, ih]
        tauto

theorem mem_foldl_insert (v u : List Int) (a : Int) :
    a ∈ v.foldl (fun acc x => insertSortedInt x acc) u ↔ a ∈ u ∨ a ∈ v := by
  induction v generalizing u with
  | nil => simp
  | cons y ys ih =>
    rw [List.foldl_cons, ih, mem_insertSortedInt]
    simp only [List.mem_cons]
    tauto

theorem mem_sortedDedup (l : List Int) (a : Int) : a ∈ sortedDedup l ↔ a ∈ l := by
  rw [sortedDedup, mem_foldl_insert]
  simp

theorem mem_idsUnion (u v : List Int) (a : Int) :
    a ∈ idsUnion u v ↔ a ∈ u ∨ a ∈ v := by
  rw [idsUnion, mem_foldl_insert]

theorem gameIds_of_update (data : List Record) (n k : Nat) (f : Record → Record)
    (hf : ∀ r, (f r).gameIds = r.gameIds) :
    (recAt (modifyAt data n f) k).gameIds = (recAt data k).gameIds := by
  rcases getD_modifyAt_cases data n k f default with h | ⟨h, _⟩
  · rw [recAt, h]; rfl
  · rw [recAt, h]; exact hf _

theorem id_of_update (data : List Record) (n k : Nat) (f : Record → Record)
    (hf : ∀ r, (f r).id = r.id) :
    (recAt (modifyAt data n f) k).id = (recAt data k).id := by
  rcases getD_modifyAt_cases data n k f default with h | ⟨h, _⟩
  · rw [recAt, h]; rfl
  · rw [recAt, h]; exact hf _

theorem length_mtp_data1 (data : List Record) (i j : Nat) :
    (mtp_data1 data i j).length = data.length := by
  unfold mtp_data1
  split
  · exact length_modifyAt _ _ _
  · rfl

/-- C3: a truncated-pair merge with `id1 < id2` (the situation at every
call site: record lists are merged in ascending-id order) marks the
second position removed, keeps the first record's id, ends with one of
the two names — the one of maximal length — and stores the union of the
two parsed gameId sets. -/
theorem merge_truncated_pair_spec (data : List Record) (removed : List Nat) (i j : Nat)
    (hi : i < data.length)
    (hid : (recAt data i).id < (recAt data j).id)
    (h1 : pyStrip (recAt data i).name = (recAt data i).name)
    (h2 : pyStrip (recAt data j).name = (recAt data j).name) :
    (merge_truncated_pair data removed i j).2 = removed ++ [j]
    ∧ (recAt (merge_truncated_pair data removed i j).1 i).id = (recAt data i).id
    ∧ ((recAt (merge_truncated_pair data removed i j).1 i).name = (recAt data i).name
        ∨ (recAt (merge_truncated_pair data removed i j).1 i).name = (recAt data j).name)
    ∧ pyLen (recAt (merge_truncated_pair data removed i j).1 i).name
        = max (pyLen (recAt data i).name) (pyLen (recAt data j).name)
    ∧ ∀ x : Int, x ∈ parse_game_ids (recAt (merge_truncated_pair data removed i j).1 i).gameIds
        ↔ x ∈ parse_game_ids (recAt data i).gameIds
          ∨ x ∈ parse_game_ids (recAt data j).gameIds := by
  have hkeep : mtp_keep data i j = i := if_pos hid
  have hrem : mtp_rem data i j = j := if_pos hid
  have hsnd : (merge_truncated_pair data removed i j).2 = removed ++ [j] := by
    rw [merge_truncated_pair, hrem]
  have hfst : (merge_truncated_pair data removed i j).1 = mtp_data2 data i j := rfl
  have hd1name : ((recAt (mtp_data1 data i j) i).name = (recAt data i).name
        ∨ (recAt (mtp_data1 data i j) i).name = (recAt data j).name)
      ∧ pyLen (recAt (mtp_data1 data i j) i).name
        = max (pyLen (recAt data i).name) (pyLen (recAt data j).name) := by
    unfold mtp_data1
    rw [hkeep]
    by_cases hlen : pyLen (pyStrip (recAt data j).name) > pyLen (pyStrip (recAt data i).name)
    · rw [if_pos hlen]
      have hset : recAt (modifyAt data i
            (fun r => { r with name := pyStrip (recAt data j).name })) i
          = { recAt data i with name := pyStrip (recAt data j).name } := by
        rw [recAt, getD_modifyAt_self _ _ _ _ hi]
        rfl
      rw [hset]
      rw [h1, h2] at hlen
      constructor
      · exact Or.inr h2
      · show pyLen (pyStrip (recAt data j).name) = _
        rw [h2, Nat.max_eq_right (Nat.le_of_lt hlen)]
    · rw [if_neg hlen]
      rw [h1, h2] at hlen
      constructor
      · exact Or.inl rfl
      · rw [Nat.max_eq_left (Nat.le_of_not_lt hlen)]
  have hd1id : (recAt (mtp_data1 data i j) i).id = (recAt data i).id := by
    unfold mtp_data1
    split
    · rw [hkeep]
      exact id_of_update _ _ _ _ (fun r => rfl)
    · rfl
  have hd1gids : (recAt (mtp_data1 data i j) i).gameIds = (recAt data i).gameIds := by
    unfold mtp_data1
    split
    · rw [hkeep]
      exact gameIds_of_update _ _ _ _ (fun r => rfl)
    · rfl
  by_cases hu : mtp_union data i j ≠ []
  · have hd2 : recAt (mtp_data2 data i j) i
        = { recAt (mtp_data1 data i j) i with gameIds := joinIds (mtp_union data i j) } := by
      rw [mtp_data2, if_pos hu, hkeep, recAt,
        getD_modifyAt_self _ _ _ _ (by rw [length_mtp_data1]; exact hi)]
      rfl
    refine ⟨hsnd, ?_, ?_, ?_, ?_⟩
    · rw [hfst, hd2]
      exact hd1id
    · rw [hfst, hd2]
      exact hd1name.1
    · rw [hfst, hd2]
      exact hd1name.2
    · intro x
      rw [hfst, hd2]
      show x ∈ parse_game_ids (joinIds (mtp_union data i j)) ↔ _
      rw [parse_game_ids_joinIds _ hu, mem_sortedDedup, mtp_union, mem_idsUnion]
  · have hd2 : mtp_data2 data i j = mtp_data1 data i j := by
      rw [mtp_data2, if_neg hu]
    push_neg at hu
    refine ⟨hsnd, ?_, ?_, ?_, ?_⟩
    · rw [hfst, hd2]
      exact hd1id
    · rw [hfst, hd2]
      exact hd1name.1
    · rw [hfst, hd2]
      exact hd1name.2
    · intro x
      rw [hfst, hd2, hd1gids]
      have hnone : ∀ y : Int, ¬ (y ∈ parse_game_ids (recAt data i).gameIds
          ∨ y ∈ parse_game_ids (recAt data j).gameIds) := by
        intro y hy
        have : y ∈ mtp_union data i j := by
          rw [mtp_union, mem_idsUnion]
          exact hy
        rw [hu] at this
        exact absurd this (List.not_mem_nil _)
      constructor
      · intro hx
        exact absurd (Or.inl hx) (hnone x)
      · intro hx
        exact absurd hx (hnone x)

/-- C3 witness: merging positions 0 and 1 of a concrete two-record list
removes position 1, keeps id 1, picks the longer name and unions the
gameIds. -/
theorem merge_truncated_pair_spec_witness :
    (merge_truncated_pair [sampleRec 1 "Foo Bar" "1" 0, sampleRec 2 "Foo Bar Baz" "2" 0]
        [] 0 1).2 = [] ++ [1]
    ∧ ((2 : Int) ∈ parse_game_ids
          (recAt (merge_truncated_pair [sampleRec 1 "Foo Bar" "1" 0,
              sampleRec 2 "Foo Bar Baz" "2" 0] [] 0 1).1 0).gameIds
        ↔ (2 : Int) ∈ parse_game_ids
            (recAt [sampleRec 1 "Foo Bar" "1" 0, sampleRec 2 "Foo Bar Baz" "2" 0] 0).gameIds
          ∨ (2 : Int) ∈ parse_game_ids
            (recAt [sampleRec 1 "Foo Bar" "1" 0, sampleRec 2 "Foo Bar Baz" "2" 0] 1).gameIds) :=
  ⟨(merge_truncated_pair_spec [sampleRec 1 "Foo Bar" "1" 0, sampleRec 2 "Foo Bar Baz" "2" 0]
      [] 0 1 (by decide) (by decide) (by decide) (by decide)).1,
   (merge_truncated_pair_spec [sampleRec 1 "Foo Bar" "1" 0, sampleRec 2 "Foo Bar Baz" "2" 0]
      [] 0 1 (by decide) (by decide) (by decide) (by decide)).2.2.2.2 2⟩

/-- C7: saving a nonempty state and loading the snapshot back restores
the record list, the id counter and all five used-value sets, into any
current state. -/
theorem save_load_round_trip (st st2 : AppState) (h : st.data ≠ []) :
    ∃ p, save_project st = some p
      ∧ (load_project st2 p).data = st.data
      ∧ (load_project st2 p).next_id = st.next_id
      ∧ (load_project st2 p).used_categories = st.used_categories
      ∧ (load_project st2 p).used_display_groups = st.used_display_groups
      ∧ (load_project st2 p).used_level_groups = st.used_level_groups
      ∧ (load_project st2 p).used_levels = st.used_levels
      ∧ (load_project st2 p).used_stacks = st.used_stacks := by
  refine ⟨_, by rw [save_project, if_neg h], ?_, ?_, ?_, ?_, ?_, ?_, ?_⟩ <;>
  · rw [load_project]
    have hmig : needs_migration
        { version := "1.0"
          data := some (st.data.map (fun r => ⟨r, none, none⟩))
          next_id := some st.next_id
          used_categories := some (st.used_categories.sort (fun a b => a ≤ b))
          used_display_groups := some (st.used_display_groups.sort (fun a b => a ≤ b))
          used_level_groups := some (st.used_level_groups.sort (fun a b => a ≤ b))
          used_stack_groups := none
          used_levels := some (st.used_levels.sort (fun a b => a ≤ b))
          used_stacks := some (st.used_stacks.sort (fun a b => a ≤ b))
          sort_column := st.sort_column
          sort_reverse := some st.sort_reverse } = false := by
      rw [needs_migration]
      simp [List.any_map, Function.comp]
    rw [migrate_project_data, hmig]
    simp [List.map_map, Function.comp_def, Finset.sort_toFinset]

/-- C7 witness: the round trip on the concrete sample state, loaded over
an emptied state. -/
theorem save_load_round_trip_witness :
    sampleState.data ≠ []
    ∧ ∃ p, save_project sampleState = some p
      ∧ (load_project (import_csv sampleState none) p).data = sampleState.data
      ∧ (load_project (import_csv sampleState none) p).next_id = sampleState.next_id
      ∧ (load_project (import_csv sampleState none) p).used_categories = sampleState.used_categories
      ∧ (load_project (import_csv sampleState none) p).used_display_groups
          = sampleState.used_display_groups
      ∧ (load_project (import_csv sampleState none) p).used_level_groups
          = sampleState.used_level_groups
      ∧ (load_project (import_csv sampleState none) p).used_levels = sampleState.used_levels
      ∧ (load_project (import_csv sampleState none) p).used_stacks = sampleState.used_stacks :=
  ⟨by decide, save_load_round_trip sampleState (import_csv sampleState none) (by decide)⟩

theorem dropWhile_head_false (p : Char → Bool) (l : List Char) (c : Char) (cs : List Char)
    (h : l.dropWhile p = c :: cs) : p c = false := by
  induction l with
  | nil => exact absurd h (by simp)
  | cons x xs ih =>
    rw [List.dropWhile_cons] at h
    by_cases hx : p x
    · rw [if_pos hx] at h
      exact ih h
    · rw [if_neg hx] at h
      injection h with h1 h2
      rw [← h1]
      cases hx2 : p x
      · rfl
      · exact absurd hx2 hx

theorem dropTrailWs_idem (l : List Char) : dropTrailWs (dropTrailWs l) = dropTrailWs l := by
  induction l with
  | nil => rfl
  | cons c cs ih =>
    rw [dropTrailWs]
    by_cases hcond : dropTrailWs cs = [] ∧ c.isWhitespace
    · rw [if_pos hcond]
      rfl
    · rw [if_neg hcond, dropTrailWs, ih, if_neg hcond]

theorem dropTrailWs_cons_shape (c : Char) (cs : List Char) :
    dropTrailWs (c :: cs) = [] ∨ ∃ r, dropTrailWs (c :: cs) = c :: r := by
  rw [dropTrailWs]
  by_cases hcond : dropTrailWs cs = [] ∧ c.isWhitespace
  · rw [if_pos hcond]
    exact Or.inl rfl
  · rw [if_neg hcond]
    exact Or.inr ⟨_, rfl⟩

theorem pyStripL_idem (l : List Char) : pyStripL (pyStripL l) = pyStripL l := by
  rw [pyStripL, pyStripL]
  have hdw : (dropTrailWs (l.dropWhile Char.isWhitespace)).dropWhile Char.isWhitespace
      = dropTrailWs (l.dropWhile Char.isWhitespace) := by
    cases hm : l.dropWhile Char.isWhitespace with
    | nil => rfl
    | cons c cs =>
      rcases dropTrailWs_cons_shape c cs with h | ⟨r, h⟩
      · rw [h]
        rfl
      · rw [h, List.dropWhile_cons, dropWhile_head_false Char.isWhitespace l c cs hm]
        simp
  rw [hdw, dropTrailWs_idem]

theorem pyStrip_idem (s : String) : pyStrip (pyStrip s) = pyStrip s := by
  rw [pyStrip, pyStrip]
  have : (⟨pyStripL s.data⟩ : String).data = pyStripL s.data := rfl
  rw [this, pyStripL_idem]

theorem lookupG_addKeyed [DecidableEq κ] (gs : List (κ × List Nat)) (k2 k : κ) (i : Nat) :
    lookupG (addKeyed gs k2 i) k
      = if k2 = k then lookupG gs k ++ [i] else lookupG gs k := by
  induction gs with
  | nil =>
    by_cases h : k2 = k
    · subst h
      simp [addKeyed, lookupG]
    · simp [addKeyed, lookupG, h]
  | cons g rest ih =>
    obtain ⟨k3, is⟩ := g
    rw [addKeyed]
    by_cases h32 : k3 = k2
    · rw [if_pos h32, lookupG, lookupG]
      by_cases h3k : k3 = k
      · rw [if_pos h3k, if_pos h3k, if_pos (h32 ▸ h3k)]
      · rw [if_neg h3k, if_neg h3k, if_neg (fun h => h3k (h32 ▸ h))]
    · rw [if_neg h32, lookupG, lookupG]
      by_cases h3k : k3 = k
      · rw [if_pos h3k, if_pos h3k, if_neg (fun h => h32 (h3k ▸ h.symm))]
      · rw [if_neg h3k, if_neg h3k, ih]

theorem lookupG_foldl [DecidableEq κ] (ps : List (Nat × κ)) (gs : List (κ × List Nat)) (k : κ) :
    lookupG (ps.foldl (fun gs p => addKeyed gs p.2 p.1) gs) k
      = lookupG gs k ++ (ps.filter (fun p => p.2 = k)).map (fun p => p.1) := by
  induction ps generalizing gs with
  | nil => simp
  | cons p ps ih =>
    rw [List.foldl_cons, ih, lookupG_addKeyed, List.filter_cons]
    by_cases h : p.2 = k
    · rw [if_pos h, if_pos (by simpa using h)]
      simp
    · rw [if_neg h, if_neg (by simpa using h)]

theorem lookupG_buildGroups [DecidableEq κ] (ps : List (Nat × κ)) (k : κ) :
    lookupG (buildGroups ps) k = (ps.filter (fun p => p.2 = k)).map (fun p => p.1) := by
  rw [buildGroups, lookupG_foldl]
  rfl

theorem keys_addKeyed [DecidableEq κ] (gs : List (κ × List Nat)) (k : κ) (i : Nat) :
    (addKeyed gs k i).map Prod.fst = gs.map Prod.fst
    ∨ (addKeyed gs k i).map Prod.fst = gs.map Prod.fst ++ [k] ∧ k ∉ gs.map Prod.fst := by
  induction gs with
  | nil => simp [addKeyed]
  | cons g rest ih =>
    obtain ⟨k3, is⟩ := g
    rw [addKeyed]
    by_cases h : k3 = k
    · rw [if_pos h]
      exact Or.inl (by simp)
    · rw [if_neg h]
      rcases ih with h2 | ⟨h2, h3⟩
      · exact Or.inl (by simp [h2])
      · refine Or.inr ⟨by simp [h2], ?_⟩
        simp only [List.map_cons, List.mem_cons]
        rintro (hk | hk)
        · exact h hk.symm
        · exact h3 hk

theorem keys_nodup_addKeyed [DecidableEq κ] (gs : List (κ × List Nat)) (k : κ) (i : Nat)
    (h : (gs.map Prod.fst).Nodup) : ((addKeyed gs k i).map Prod.fst).Nodup := by
  rcases keys_addKeyed gs k i with h2 | ⟨h2, h3⟩
  · rw [h2]; exact h
  · rw [h2]
    simp only [List.nodup_append, List.nodup_cons, List.nodup_nil]
    exact ⟨h, by simp, by simpa using h3⟩

theorem keys_nodup_buildGroups [DecidableEq κ] (ps : List (Nat × κ)) :
    ((buildGroups ps).map Prod.fst).Nodup := by
  rw [buildGroups]
  have hgen : ∀ gs : List (κ × List Nat), (gs.map Prod.fst).Nodup →
      ((ps.foldl (fun gs p => addKeyed gs p.2 p.1) gs).map Prod.fst).Nodup := by
    induction ps with
    | nil => exact fun gs h => h
    | cons p ps ih =>
      intro gs h
      exact ih _ (keys_nodup_addKeyed gs p.2 p.1 h)
  exact hgen [] (by simp)

theorem lookupG_of_mem [DecidableEq κ] (gs : List (κ × List Nat)) (k : κ) (g : List Nat)
    (hnd : (gs.map Prod.fst).Nodup) (h : (k, g) ∈ gs) : lookupG gs k = g := by
  induction gs with
  | nil => exact absurd h (by simp)
  | cons g2 rest ih =>
    obtain ⟨k3, is⟩ := g2
    rcases List.mem_cons.mp h with h2 | h2
    · rw [lookupG, if_pos (by injection h2 with ha hb; exact ha.symm)]
      injection h2 with ha hb
      exact hb.symm
    · have hk3 : k3 ≠ k := by
        intro hc
        subst hc
        have : k3 ∈ rest.map Prod.fst := by
          exact List.mem_map.mpr ⟨(k3, g), h2, rfl⟩
        simp only [List.map_cons, List.nodup_cons] at hnd
        exact hnd.1 this
      rw [lookupG, if_neg hk3]
      exact ih (by simp only [List.map_cons, List.nodup_cons] at hnd; exact hnd.2) h2

theorem mem_of_lookupG_ne_nil [DecidableEq κ] (gs : List (κ × List Nat)) (k : κ)
    (h : lookupG gs k ≠ []) : (k, lookupG gs k) ∈ gs := by
  induction gs with
  | nil => exact absurd rfl h
  | cons g rest ih =>
    obtain ⟨k3, is⟩ := g
    by_cases h3 : k3 = k
    · rw [lookupG, if_pos h3]
      rw [lookupG, if_pos h3] at h
      subst h3
      exact List.mem_cons_self _ _
    · rw [lookupG, if_neg h3]
      rw [lookupG, if_neg h3] at h
      exact List.mem_cons_of_mem _ (ih h)

theorem length_insertLe (le : α → α → Bool) (x : α) (l : List α) :
    (insertLe le x l).length = l.length + 1 := by
  induction l with
  | nil => rfl
  | cons y ys ih =>
    rw [insertLe]
    split
    · simp [ih]
    · simp

theorem length_sortByLe (le : α → α → Bool) (l : List α) :
    (sortByLe le l).length = l.length := by
  induction l with
  | nil => rfl
  | cons x xs ih => rw [sortByLe, length_insertLe, ih, List.length_cons]

theorem insertLe_congr (le1 le2 : α → α → Bool) (h : ∀ a b, le1 a b = le2 a b)
    (x : α) (l : List α) : insertLe le1 x l = insertLe le2 x l := by
  induction l with
  | nil => rfl
  | cons y ys ih => rw [insertLe, insertLe, h, ih]

theorem sortByLe_congr (le1 le2 : α → α → Bool) (h : ∀ a b, le1 a b = le2 a b)
    (l : List α) : sortByLe le1 l = sortByLe le2 l := by
  induction l with
  | nil => rfl
  | cons x xs ih => rw [sortByLe, sortByLe, ih, insertLe_congr le1 le2 h]

theorem mem_phase1Pairs (data : List Record) (i : Nat) (k : String) :
    (i, k) ∈ phase1Pairs data
      ↔ i < data.length ∧ pyStrip (recAt data i).name = k ∧ k ≠ "" := by
  rw [phase1Pairs]
  constructor
  · intro h
    obtain ⟨i2, hi2, heq⟩ := List.mem_map.mp h
    injection heq with h1 h2
    subst h1
    have := List.mem_filter.mp hi2
    refine ⟨List.mem_range.mp this.1, h2, ?_⟩
    rw [← h2]
    simpa using this.2
  · rintro ⟨h1, h2, h3⟩
    refine List.mem_map.mpr ⟨i, List.mem_filter.mpr ⟨List.mem_range.mpr h1, ?_⟩, by rw [h2]⟩
    rw [h2]
    simpa using h3

theorem merge_items_preserves (st : MergeSt) (idxs : List Nat) :
    (∀ p, (recAt (merge_items st idxs).1 p).name = (recAt st.1 p).name
        ∧ (recAt (merge_items st idxs).1 p).id = (recAt st.1 p).id)
    ∧ (merge_items st idxs).1.length = st.1.length
    ∧ (merge_items st idxs).2
        = st.2 ++ (sortByLe (fun a b => (recAt st.1 a).id ≤ (recAt st.1 b).id) idxs).tail := by
  rw [merge_items]
  cases hs : sortByLe (fun a b => (recAt st.1 a).id ≤ (recAt st.1 b).id) idxs with
  | nil =>
    rw [merge_items_sorted]
    exact ⟨fun p => ⟨rfl, rfl⟩, rfl, by simp⟩
  | cons keep rest =>
    rw [merge_items_sorted]
    refine ⟨?_, ?_, by simp⟩
    · intro p
      split
      · exact ⟨name_of_update _ _ _ _ (fun r => rfl), id_of_update _ _ _ _ (fun r => rfl)⟩
      · exact ⟨rfl, rfl⟩
    · split
      · exact length_modifyAt _ _ _
      · rfl

theorem phase1_fold_spec (gs : List (String × List Nat)) (st : MergeSt) (data0 : List Record)
    (hP : (∀ p, (recAt st.1 p).name = (recAt data0 p).name
          ∧ (recAt st.1 p).id = (recAt data0 p).id)
        ∧ st.1.length = data0.length) :
    ((∀ p, (recAt (gs.foldl (fun st g => if g.2.length > 1 then merge_items st g.2 else st) st).1 p).name
            = (recAt data0 p).name
        ∧ (recAt (gs.foldl (fun st g => if g.2.length > 1 then merge_items st g.2 else st) st).1 p).id
            = (recAt data0 p).id)
      ∧ (gs.foldl (fun st g => if g.2.length > 1 then merge_items st g.2 else st) st).1.length
          = data0.length)
    ∧ (∀ x ∈ st.2, x ∈ (gs.foldl (fun st g => if g.2.length > 1 then merge_items st g.2 else st) st).2)
    ∧ ∀ g ∈ gs, g.2.length > 1 →
        ∀ x ∈ (sortByLe (fun a b => (recAt data0 a).id ≤ (recAt data0 b).id) g.2).tail,
          x ∈ (gs.foldl (fun st g => if g.2.length > 1 then merge_items st g.2 else st) st).2 := by
  induction gs generalizing st with
  | nil => exact ⟨hP, fun x hx => hx, by simp⟩
  | cons g gs ih =>
    rw [List.foldl_cons]
    by_cases hg : g.2.length > 1
    · rw [if_pos hg]
      obtain ⟨hpres, hlen, hrem⟩ := merge_items_preserves st g.2
      have hsort : sortByLe (fun a b => (recAt st.1 a).id ≤ (recAt st.1 b).id) g.2
          = sortByLe (fun a b => (recAt data0 a).id ≤ (recAt data0 b).id) g.2 :=
        sortByLe_congr _ _ (fun a b => by rw [(hP.1 a).2, (hP.1 b).2]) g.2
      have hP2 : (∀ p, (recAt (merge_items st g.2).1 p).name = (recAt data0 p).name
            ∧ (recAt (merge_items st g.2).1 p).id = (recAt data0 p).id)
          ∧ (merge_items st g.2).1.length = data0.length := by
        refine ⟨fun p => ⟨?_, ?_⟩, by rw [hlen, hP.2]⟩
        · rw [(hpres p).1, (hP.1 p).1]
        · rw [(hpres p).2, (hP.1 p).2]
      obtain ⟨ihP, ihmono, ihgroups⟩ := ih (merge_items st g.2) hP2
      refine ⟨ihP, ?_, ?_⟩
      · intro x hx
        exact ihmono x (by rw [hrem]; exact List.mem_append_left _ hx)
      · intro g2 hg2 hglen x hx
        rcases List.mem_cons.mp hg2 with h | h
        · subst h
          refine ihmono x ?_
          rw [hrem, hsort]
          exact List.mem_append_right _ hx
        · exact ihgroups g2 h hglen x hx
    · rw [if_neg hg]
      obtain ⟨ihP, ihmono, ihgroups⟩ := ih st hP
      refine ⟨ihP, ihmono, ?_⟩
      intro g2 hg2 hglen x hx
      rcases List.mem_cons.mp hg2 with h | h
      · subst h
        exact absurd hglen hg
      · exact ihgroups g2 h hglen x hx

theorem phase1_names_inj (data : List Record) : NamesInjSt (merge_exact_phase data) := by
  have hfold := phase1_fold_spec (name_groups data) (data, []) data
    ⟨fun p => ⟨rfl, rfl⟩, rfl⟩
  rw [merge_exact_phase]
  intro i j hi hj hir hjr hne heq
  obtain ⟨⟨hnames, hlen⟩, _, hgroups⟩ := hfold
  have hi2 : i < data.length := by rw [← hlen]; exact hi
  have hj2 : j < data.length := by rw [← hlen]; exact hj
  have hnei : pyStrip (recAt data i).name ≠ "" := by rw [← (hnames i).1]; exact hne
  have heq2 : pyStrip (recAt data i).name = pyStrip (recAt data j).name := by
    rw [← (hnames i).1, ← (hnames j).1]; exact heq
  set k := pyStrip (recAt data i).name with hk
  have hmemi : i ∈ lookupG (name_groups data) k := by
    rw [name_groups, lookupG_buildGroups]
    exact List.mem_map.mpr ⟨(i, k),
      List.mem_filter.mpr ⟨(mem_phase1Pairs data i k).mpr ⟨hi2, rfl, hnei⟩, by simp⟩, rfl⟩
  have hmemj : j ∈ lookupG (name_groups data) k := by
    rw [name_groups, lookupG_buildGroups]
    exact List.mem_map.mpr ⟨(j, k),
      List.mem_filter.mpr ⟨(mem_phase1Pairs data j k).mpr ⟨hj2, heq2.symm, hnei⟩, by simp⟩, rfl⟩
  set g := lookupG (name_groups data) k with hg
  have hgmem : (k, g) ∈ name_groups data :=
    mem_of_lookupG_ne_nil _ _ (fun hc => by rw [hg, hc] at hmemi; exact absurd hmemi (by simp))
  by_cases hglen : g.length > 1
  · have hsub := hgroups (k, g) hgmem hglen
    have hsi : i ∈ sortByLe (fun a b => (recAt data a).id ≤ (recAt data b).id) g :=
      (mem_sortByLe _ _ _).mpr hmemi
    have hsj : j ∈ sortByLe (fun a b => (recAt data a).id ≤ (recAt data b).id) g :=
      (mem_sortByLe _ _ _).mpr hmemj
    cases hs : sortByLe (fun a b => (recAt data a).id ≤ (recAt data b).id) g with
    | nil =>
      rw [hs] at hsi
      exact absurd hsi (by simp)
    | cons hd tl =>
      rw [hs] at hsi hsj
      rcases List.mem_cons.mp hsi with h1 | h1
      · rcases List.mem_cons.mp hsj with h2 | h2
        · rw [h1, h2]
        · exact absurd (hsub j (by rw [hs]; simpa using h2)) hjr
      · exact absurd (hsub i (by rw [hs]; simpa using h1)) hir
  · cases hgl : g with
    | nil =>
      rw [hgl] at hmemi
      exact absurd hmemi (by simp)
    | cons a t =>
      cases t with
      | nil =>
        rw [hgl] at hmemi hmemj
        simp only [List.mem_singleton] at hmemi hmemj
        rw [hmemi, hmemj]
      | cons b t2 =>
        rw [hgl] at hglen
        exact absurd (by rw [List.length_cons, List.length_cons]; omega) hglen

theorem length_mtp_data2 (data : List Record) (i j : Nat) :
    (mtp_data2 data i j).length = data.length := by
  rw [mtp_data2]
  split
  · rw [length_modifyAt, length_mtp_data1]
  · exact length_mtp_data1 data i j

theorem name_mtp_data2 (data : List Record) (i j p : Nat) :
    (recAt (mtp_data2 data i j) p).name = (recAt (mtp_data1 data i j) p).name := by
  rw [mtp_data2]
  split
  · exact name_of_update _ _ _ _ (fun r => rfl)
  · rfl

theorem strip_name_mtp_data1 (data : List Record) (i j p : Nat) :
    pyStrip (recAt (mtp_data1 data i j) p).name = pyStrip (recAt data p).name
    ∨ (p = mtp_keep data i j
        ∧ pyStrip (recAt (mtp_data1 data i j) p).name = pyStrip (recAt data j).name) := by
  rw [mtp_data1]
  split
  · rcases getD_modifyAt_cases data (mtp_keep data i j) p
        (fun r => { r with name := pyStrip (recAt data j).name }) default with hcase | ⟨hcase, hpk⟩
    · left
      show pyStrip ((modifyAt data (mtp_keep data i j) _).getD p default).name = _
      rw [hcase]
      rfl
    · right
      refine ⟨hpk, ?_⟩
      show pyStrip ((modifyAt data (mtp_keep data i j) _).getD p default).name = _
      rw [hcase]
      show pyStrip (pyStrip (recAt data j).name) = _
      exact pyStrip_idem _
  · left
    rfl

theorem mtp_keep_rem_cases (data : List Record) (i j : Nat) :
    (mtp_keep data i j = i ∧ mtp_rem data i j = j)
    ∨ (mtp_keep data i j = j ∧ mtp_rem data i j = i) := by
  rw [mtp_keep, mtp_rem]
  by_cases h : (recAt data i).id < (recAt data j).id
  · exact Or.inl ⟨if_pos h, if_pos h⟩
  · exact Or.inr ⟨if_neg h, if_neg h⟩

theorem recAt_out_of_range (l : List Record) (p : Nat) (h : ¬ p < l.length) :
    recAt l p = default := by
  rw [recAt]
  exact List.getD_eq_default _ _ (by omega)

theorem trunc_pair_step_names_inj (st : MergeSt) (i j : Nat) (h : NamesInjSt st) :
    NamesInjSt (trunc_pair_step st i j) := by
  rw [trunc_pair_step]
  by_cases hrm : i ∈ st.2 ∨ j ∈ st.2
  · rw [if_pos hrm]
    exact h
  · rw [if_neg hrm]
    push_neg at hrm
    split
    · rw [merge_truncated_pair]
      intro a b ha hb har hbr hne heq
      have hlen2 : (mtp_data2 st.1 i j).length = st.1.length := length_mtp_data2 st.1 i j
      have ha2 : a < st.1.length := by rw [← hlen2]; exact ha
      have hb2 : b < st.1.length := by rw [← hlen2]; exact hb
      have har2 : a ∉ st.2 ∧ a ≠ mtp_rem st.1 i j := by
        constructor
        · intro hc
          exact har (List.mem_append_left _ hc)
        · intro hc
          exact har (List.mem_append_right _ (by rw [hc]; exact List.mem_singleton.mpr rfl))
      have hbr2 : b ∉ st.2 ∧ b ≠ mtp_rem st.1 i j := by
        constructor
        · intro hc
          exact hbr (List.mem_append_left _ hc)
        · intro hc
          exact hbr (List.mem_append_right _ (by rw [hc]; exact List.mem_singleton.mpr rfl))
      have hjname : ∀ c : Nat, c < st.1.length → c ∉ st.2 →
          pyStrip (recAt st.1 c).name ≠ "" →
          pyStrip (recAt st.1 c).name = pyStrip (recAt st.1 j).name → c = j := by
        intro c hc hcr hcne hceq
        by_cases hjlen : j < st.1.length
        · exact h c j hc hjlen hcr hrm.2 hcne hceq
        · rw [recAt_out_of_range st.1 j hjlen] at hceq
          exact absurd (by rw [hceq]; rfl) hcne
      have hnames : ∀ p : Nat,
          pyStrip (recAt (mtp_data2 st.1 i j) p).name = pyStrip (recAt st.1 p).name
          ∨ (p = mtp_keep st.1 i j
              ∧ pyStrip (recAt (mtp_data2 st.1 i j) p).name = pyStrip (recAt st.1 j).name) := by
        intro p
        have hn2 := name_mtp_data2 st.1 i j p
        rcases strip_name_mtp_data1 st.1 i j p with hcase | ⟨hpk, hcase⟩
        · left
          rw [hn2, hcase]
        · right
          exact ⟨hpk, by rw [hn2, hcase]⟩
      rcases hnames a with hna | ⟨hak, hna⟩ <;> rcases hnames b with hnb | ⟨hbk, hnb⟩
      · rw [hna] at hne heq
        rw [hnb] at heq
        exact h a b ha2 hb2 har2.1 hbr2.1 hne heq
      · rw [hna] at hne heq
        rw [hnb] at heq
        have haj : a = j := hjname a ha2 har2.1 hne heq
        rcases mtp_keep_rem_cases st.1 i j with ⟨hk, hr⟩ | ⟨hk, hr⟩
        · exact absurd (haj.trans hr.symm) har2.2
        · rw [haj, hbk, hk]
      · rw [hnb] at heq
        rw [hna] at hne heq
        have hbj : b = j := hjname b hb2 hbr2.1 (by rw [← heq]; exact hne) heq.symm
        rcases mtp_keep_rem_cases st.1 i j with ⟨hk, hr⟩ | ⟨hk, hr⟩
        · exact absurd (hbj.trans hr.symm) hbr2.2
        · rw [hbj, hak, hk]
      · rw [hak, hbk]
    · exact h

theorem trunc_pairs_from_names_inj (ys : List Nat) (st : MergeSt) (x : Nat)
    (h : NamesInjSt st) : NamesInjSt (trunc_pairs_from st x ys) := by
  induction ys generalizing st with
  | nil => exact h
  | cons y ys ih =>
    rw [trunc_pairs_from]
    exact ih _ (trunc_pair_step_names_inj st x y h)

theorem trunc_group_loop_names_inj (g : List Nat) (st : MergeSt)
    (h : NamesInjSt st) : NamesInjSt (trunc_group_loop st g) := by
  induction g generalizing st with
  | nil => exact h
  | cons x ys ih =>
    rw [trunc_group_loop]
    exact ih _ (trunc_pairs_from_names_inj ys st x h)

theorem merge_truncated_names_names_inj (data : List Record) (removed : List Nat)
    (h : NamesInjSt (data, removed)) : NamesInjSt (merge_truncated_names data removed) := by
  rw [merge_truncated_names]
  have hgen : ∀ (gs : List (String × List Nat)) (st : MergeSt), NamesInjSt st →
      NamesInjSt (gs.foldl
        (fun st g => if g.2.length ≥ 2 then trunc_group_loop st g.2 else st) st) := by
    intro gs
    induction gs with
    | nil => exact fun st hst => hst
    | cons g gs ih =>
      intro st hst
      rw [List.foldl_cons]
      by_cases hg : g.2.length ≥ 2
      · rw [if_pos hg]
        exact ih _ (trunc_group_loop_names_inj g.2 st hst)
      · rw [if_neg hg]
        exact ih _ hst
  exact hgen _ _ h

theorem names_inj_alive_output (d : List Record) (removed : List Nat)
    (h : NamesInjSt (d, removed)) :
    NamesInjSt ((((List.range d.length).filter (fun i => i ∉ removed)).map
      (fun i => recAt d i)), []) := by
  intro a b ha hb _ _ hne heq
  rw [List.length_map] at ha hb
  have key : ∀ c, c < ((List.range d.length).filter (fun i => i ∉ removed)).length →
      ((List.range d.length).filter (fun i => i ∉ removed)).getD c 0 < d.length
      ∧ ((List.range d.length).filter (fun i => i ∉ removed)).getD c 0 ∉ removed
      ∧ recAt ((((List.range d.length).filter (fun i => i ∉ removed)).map
            (fun i => recAt d i))) c
          = recAt d (((List.range d.length).filter (fun i => i ∉ removed)).getD c 0) := by
    intro c hc
    have hmem : ((List.range d.length).filter (fun i => i ∉ removed)).getD c 0
        ∈ (List.range d.length).filter (fun i => i ∉ removed) := by
      rw [List.getD_eq_getElem _ _ hc]
      exact List.getElem_mem _
    have hf := List.mem_filter.mp hmem
    refine ⟨List.mem_range.mp hf.1, by simpa using hf.2, ?_⟩
    rw [recAt, List.getD_eq_getElem _ _ (by rw [List.length_map]; exact hc),
      List.getD_eq_getElem _ _ hc]
    simp
  obtain ⟨haL, haR, haE⟩ := key a ha
  obtain ⟨hbL, hbR, hbE⟩ := key b hb
  rw [haE] at hne heq
  rw [hbE] at heq
  have heqidx := h _ _ haL hbL haR hbR hne heq
  rw [List.getD_eq_getElem _ _ ha, List.getD_eq_getElem _ _ hb] at heqidx
  exact (List.Nodup.getElem_inj_iff (List.Nodup.filter _ (List.nodup_range _))).mp heqidx

theorem phase1_fold_noop (gs : List (String × List Nat)) (st : MergeSt)
    (h : ∀ g ∈ gs, ¬ (g.2.length > 1)) :
    gs.foldl (fun st g => if g.2.length > 1 then merge_items st g.2 else st) st = st := by
  induction gs generalizing st with
  | nil => rfl
  | cons g gs ih =>
    rw [List.foldl_cons, if_neg (h g (List.mem_cons_self _ _))]
    exact ih st (fun g2 hg2 => h g2 (List.mem_cons_of_mem _ hg2))

theorem pairs_fst_nodup (l : List Record) : ((phase1Pairs l).map Prod.fst).Nodup := by
  rw [phase1Pairs, List.map_map]
  have hmapeq : (Prod.fst ∘ fun i => (i, pyStrip (recAt l i).name)) = fun i : Nat => i := rfl
  rw [hmapeq, List.map_id']
  exact List.Nodup.filter _ (List.nodup_range _)

theorem name_groups_small (l : List Record) (h : NamesInjSt (l, [])) :
    ∀ g ∈ name_groups l, ¬ (g.2.length > 1) := by
  rintro ⟨k, g⟩ hg hlen
  have hgl : lookupG (name_groups l) k = g :=
    lookupG_of_mem _ _ _ (keys_nodup_buildGroups _) hg
  have hgfilter : g = ((phase1Pairs l).filter (fun p => p.2 = k)).map (fun p => p.1) := by
    rw [← hgl, name_groups, lookupG_buildGroups]
  have hgnd : g.Nodup := by
    rw [hgfilter]
    have hsub : List.Sublist
        (((phase1Pairs l).filter (fun p => p.2 = k)).map (fun p : Nat × String => p.1))
        ((phase1Pairs l).map Prod.fst) :=
      List.Sublist.map _ (List.filter_sublist _)
    exact List.Nodup.sublist hsub (pairs_fst_nodup l)
  have hmem : ∀ a ∈ g, a < l.length ∧ pyStrip (recAt l a).name = k ∧ k ≠ "" := by
    intro a hamem
    rw [hgfilter] at hamem
    obtain ⟨p, hp, hpa⟩ := List.mem_map.mp hamem
    have hpf := List.mem_filter.mp hp
    have hk : p.2 = k := by simpa using hpf.2
    have hpair : (a, k) ∈ phase1Pairs l := by
      have : p = (a, k) := by
        obtain ⟨p1, p2⟩ := p
        simp only at hpa hk
        rw [hpa, hk]
      rw [← this]
      exact hpf.1
    exact (mem_phase1Pairs l a k).mp hpair
  cases hgc : g with
  | nil =>
    rw [hgc] at hlen
    exact absurd hlen (by simp)
  | cons a t =>
    cases htc : t with
    | nil =>
      rw [hgc, htc] at hlen
      exact absurd hlen (by simp)
    | cons b t2 =>
      have hamem : a ∈ g := by rw [hgc]; exact List.mem_cons_self _ _
      have hbmem : b ∈ g := by
        rw [hgc, htc]
        exact List.mem_cons_of_mem _ (List.mem_cons_self _ _)
      have hab : a ≠ b := by
        rw [hgc, htc] at hgnd
        have := List.nodup_cons.mp hgnd
        intro hc
        exact this.1 (by rw [hc]; exact List.mem_cons_self _ _)
      obtain ⟨haL, haN, hkne⟩ := hmem a hamem
      obtain ⟨hbL, hbN, _⟩ := hmem b hbmem
      exact hab (h a b haL hbL (by simp) (by simp)
        (by rw [haN]; exact hkne) (by rw [haN, hbN]))

theorem phase1_noop_of_names_inj (l : List Record) (h : NamesInjSt (l, [])) :
    merge_exact_phase l = (l, []) := by
  rw [merge_exact_phase]
  exact phase1_fold_noop _ _ (name_groups_small l h)

/-- C1, amended: a second run of `merge_duplicate_names` over its own
output performs no further exact-name (phase 1) merges — the surviving
records' nonempty stripped names are pairwise distinct, so the
exact-duplicate phase of a second run removes nothing and writes
nothing.  (Truncated-variant merges can still fire on a second run, as
`merge_duplicate_names_not_idempotent` shows, so full idempotence
fails.) -/
theorem merge_exact_phase_fixed_on_merge_output (data : List Record) :
    merge_exact_phase (merge_duplicate_names data)
      = (merge_duplicate_names data, []) := by
  have h1 : NamesInjSt (merge_exact_phase data) := phase1_names_inj data
  have h2 : NamesInjSt (merge_truncated_names (merge_exact_phase data).1
      (merge_exact_phase data).2) :=
    merge_truncated_names_names_inj _ _ h1
  have hout : merge_duplicate_names data
      = ((List.range (merge_truncated_names (merge_exact_phase data).1
            (merge_exact_phase data).2).1.length).filter
          (fun i => i ∉ (merge_truncated_names (merge_exact_phase data).1
            (merge_exact_phase data).2).2)).map
          (fun i => recAt (merge_truncated_names (merge_exact_phase data).1
            (merge_exact_phase data).2).1 i) := rfl
  have h3 : NamesInjSt (merge_duplicate_names data, []) := by
    rw [hout]
    exact names_inj_alive_output _ _ h2
  exact phase1_noop_of_names_inj _ h3

/-- C4 witness: the general theorem at the concrete sample state. -/
theorem import_csv_used_value_sets_witness :
    (import_csv sampleState (some [])).used_level_groups = sampleState.used_level_groups
    ∧ (import_csv sampleState (some [])).used_categories = ∅ :=
  ⟨(import_csv_used_value_sets sampleState []).1, (import_csv_used_value_sets sampleState []).2.1⟩

/-- C10 witness: a record whose stacks cell is `"Yes"` exports
`stacks = true`, and one with `"maybe"` exports no stacks key. -/
theorem export_json_stacks_key_iff_witness :
    (export_json_item { sampleRec 1 "X" "1" 7 with stacks_ := "Yes" }).stacks_ = some true
    ∧ (export_json_item { sampleRec 1 "X" "1" 7 with stacks_ := "maybe" }).stacks_ = none :=
  ⟨((export_json_stacks_key_iff { sampleRec 1 "X" "1" 7 with stacks_ := "Yes" }).1).mpr rfl,
   ((export_json_stacks_key_iff { sampleRec 1 "X" "1" 7 with stacks_ := "maybe" }).2.2).mpr
     (by refine ⟨?_, ?_⟩ <;> decide)⟩

/-- C1 amended-theorem witness: the no-further-exact-merges fact at the
concrete counterexample data. -/
theorem merge_exact_phase_fixed_on_merge_output_witness :
    merge_exact_phase (merge_duplicate_names dupExample)
      = (merge_duplicate_names dupExample, []) :=
  merge_exact_phase_fixed_on_merge_output dupExample
